import Mathlib

/-!
Verification of the transcript-summarization pipeline of the
YouTube-Summarizer repository.

Strings are modelled as lists of characters (`Str`).  Each definition is a
shallow embedding of the corresponding TypeScript function; effectful steps
(network, database, file system) are supplied through explicit oracle
records.
-/

namespace YTS

abbrev Str := List Char

/-- JS `arr.slice(-k)`.  For `k = 0` JavaScript evaluates `slice(-0) =
slice(0)`, which returns the whole array; for `k ≥ 1` it returns the last
`min k l.length` elements. -/
def sliceNeg (k : Nat) (l : List α) : List α :=
  if k = 0 then l else l.drop (l.length - k)

/-- JS `s.split(sep)` for a single-character separator: empty pieces are
kept, and splitting the empty string yields one empty piece. -/
def splitOnC (sep : Char) : Str → List Str
  | [] => [[]]
  | c :: t =>
    match splitOnC sep t with
    | [] => [[c]]
    | h :: r => if c = sep then [] :: h :: r else (c :: h) :: r

/-- JS `parts.join(sep)` for a single-character separator. -/
def joinSep (sep : Char) : List Str → Str
  | [] => []
  | [w] => w
  | w :: ws => w ++ sep :: joinSep sep ws

/-- `words.join(' ').length`: the character length of the words joined by
single spaces. -/
def jlen (ws : List Str) : Nat := (joinSep ' ' ws).length

/-- The word-accumulation loop of `splitTranscriptIntoChunks`
(src/app/api/summarize/route.ts, lines 279-293).  State: the words not yet
consumed, the current chunk (`currentChunk`) and the running character
counter (`currentLength`).  On overflow the current chunk is emitted and
the next chunk is seeded with `currentChunk.slice(-Math.floor(overlap/10))`. -/
def chunkLoop (cs k : Nat) : List Str → List Str → Nat → List (List Str)
  | [], cur, _ => if cur = [] then [] else [cur]
  | w :: rest, cur, curLen =>
    if cs < curLen + w.length ∧ cur ≠ [] then
      let carry := sliceNeg k cur
      cur :: chunkLoop cs k rest (carry ++ [w]) (jlen carry + (w.length + 1))
    else
      chunkLoop cs k rest (cur ++ [w]) (curLen + (w.length + 1))

/-- `transcript.split(' ')`. -/
def wordsOf (t : Str) : List Str := splitOnC ' ' t

/-- The chunks of `splitTranscriptIntoChunks` as word lists, before the
final `join(' ')`; `k = Math.floor(overlap / 10)`. -/
def splitChunksWords (cs k : Nat) (t : Str) : List (List Str) :=
  chunkLoop cs k (wordsOf t) [] 0

/-- `splitTranscriptIntoChunks(transcript, chunkSize, overlap)`
(src/app/api/summarize/route.ts, lines 273-306): split on single spaces,
accumulate greedily, seed each new chunk with the tail of the previous one,
and join each chunk with single spaces. -/
def splitTranscriptIntoChunks (t : Str) (chunkSize : Nat := 150000)
    (overlap : Nat := 10000) : List Str :=
  (chunkLoop chunkSize (overlap / 10) (wordsOf t) [] 0).map (joinSep ' ')

/-! Basic facts about the word splitter and joiner. -/

theorem splitOnC_ne_nil (sep : Char) (t : Str) : splitOnC sep t ≠ [] := by
  cases t with
  | nil => simp [splitOnC]
  | cons c t =>
    simp only [splitOnC]
    cases h : splitOnC sep t with
    | nil => simp
    | cons h r =>
      by_cases hc : c = sep <;> simp [hc]

theorem wordsOf_ne_nil (t : Str) : wordsOf t ≠ [] := splitOnC_ne_nil ' ' t

theorem jlen_nil : jlen [] = 0 := rfl

theorem jlen_singleton (w : Str) : jlen [w] = w.length := rfl

theorem jlen_cons_cons (w x : Str) (t : List Str) :
    jlen (w :: x :: t) = w.length + 1 + jlen (x :: t) := by
  simp only [jlen, joinSep]
  simp [List.length_append]
  omega

theorem jlen_append_singleton (ws : List Str) (w : Str) (h : ws ≠ []) :
    jlen (ws ++ [w]) = jlen ws + (w.length + 1) := by
  induction ws with
  | nil => simp at h
  | cons a t ih =>
    cases t with
    | nil =>
      show jlen [a, w] = jlen [a] + (w.length + 1)
      rw [jlen_cons_cons, jlen_singleton, jlen_singleton]
      omega
    | cons b t' =>
      have ht : (b :: t') ≠ [] := by simp
      have := ih ht
      simp only [List.cons_append]
      rw [jlen_cons_cons, jlen_cons_cons]
      rw [List.cons_append] at this
      omega

/-- The loop never returns the empty chunk list unless both the remaining
words and the current chunk are empty. -/
theorem chunkLoop_eq_nil (cs k : Nat) :
    ∀ (ws : List Str) (cur : List Str) (curLen : Nat),
      chunkLoop cs k ws cur curLen = [] → ws = [] ∧ cur = [] := by
  intro ws
  induction ws with
  | nil =>
    intro cur curLen h
    by_cases hc : cur = []
    · exact ⟨rfl, hc⟩
    · simp [chunkLoop, hc] at h
  | cons w rest ih =>
    intro cur curLen h
    simp only [chunkLoop] at h
    by_cases hg : cs < curLen + w.length ∧ cur ≠ []
    · simp [hg] at h
    · simp only [if_neg hg] at h
      have := ih _ _ h
      simp at this

/-- **C9** (part): `splitTranscriptIntoChunks` always returns at least one
chunk. -/
theorem splitTranscriptIntoChunks_ne_nil (t : Str) (cs ov : Nat) :
    splitTranscriptIntoChunks t cs ov ≠ [] := by
  intro h
  simp only [splitTranscriptIntoChunks, List.map_eq_nil_iff] at h
  have := chunkLoop_eq_nil cs (ov / 10) (wordsOf t) [] 0 h
  exact wordsOf_ne_nil t this.1

/-- C9: `splitTranscriptIntoChunks` is total and always returns a
non-empty chunk list — in particular the empty transcript yields exactly
one chunk, the empty string — so the reported `totalChunks` is at least 1. -/
theorem C9_split_total_nonempty :
    (∀ (t : Str) (cs ov : Nat), 1 ≤ (splitTranscriptIntoChunks t cs ov).length)
    ∧ (∀ cs ov : Nat, splitTranscriptIntoChunks [] cs ov = [[]]) := by
  constructor
  · intro t cs ov
    have h := splitTranscriptIntoChunks_ne_nil t cs ov
    cases hh : splitTranscriptIntoChunks t cs ov with
    | nil => exact absurd hh h
    | cons a l => simp
  · intro cs ov
    have h0 : ¬ (cs < 0 + ([] : Str).length ∧ ([] : List Str) ≠ []) := by simp
    simp [splitTranscriptIntoChunks, wordsOf, splitOnC, chunkLoop, h0, joinSep]

theorem sliceNeg_ne_nil (k : Nat) (l : List α) (h : l ≠ []) : sliceNeg k l ≠ [] := by
  unfold sliceNeg
  by_cases hk : k = 0
  · simpa [hk]
  · simp only [if_neg hk]
    intro hcon
    have hlen := congrArg List.length hcon
    simp [List.length_drop] at hlen
    have : 0 < l.length := List.length_pos.mpr h
    omega

/-- The first chunk returned by the loop extends the chunk under
construction. -/
theorem chunkLoop_head (cs k : Nat) :
    ∀ (ws cur : List Str) (curLen : Nat),
      chunkLoop cs k ws cur curLen ≠ [] →
      ∃ d t', chunkLoop cs k ws cur curLen = (cur ++ d) :: t' := by
  intro ws
  induction ws with
  | nil =>
    intro cur curLen hne
    by_cases hc : cur = []
    · simp [chunkLoop, hc] at hne
    · exact ⟨[], [], by simp [chunkLoop, hc]⟩
  | cons w rest ih =>
    intro cur curLen hne
    by_cases hg : cs < curLen + w.length ∧ cur ≠ []
    · exact ⟨[], chunkLoop cs k rest (sliceNeg k cur ++ [w])
        (jlen (sliceNeg k cur) + (w.length + 1)), by simp [chunkLoop, hg]⟩
    · simp only [chunkLoop, if_neg hg] at hne ⊢
      obtain ⟨d, t', hd⟩ := ih _ _ hne
      exact ⟨[w] ++ d, t', by simpa [List.append_assoc] using hd⟩

/-- Reconstruction invariant of the loop: the first chunk extends the
accumulator, and dropping each chunk's carried-overlap prefix and
concatenating yields exactly the unconsumed words. -/
theorem chunkLoop_reconstruct (cs k : Nat) :
    ∀ (ws cur : List Str) (curLen : Nat), cur ≠ [] ∨ ws ≠ [] →
      ∃ c t d, chunkLoop cs k ws cur curLen = c :: t ∧ c = cur ++ d ∧
        d ++ (List.zipWith (fun a b => b.drop (sliceNeg k a).length)
          (c :: t) t).flatten = ws := by
  intro ws
  induction ws with
  | nil =>
    intro cur curLen hne
    have hc : cur ≠ [] := by
      rcases hne with h | h
      · exact h
      · exact absurd rfl h
    exact ⟨cur, [], [], by simp [chunkLoop, hc]⟩
  | cons w rest ih =>
    intro cur curLen _
    by_cases hg : cs < curLen + w.length ∧ cur ≠ []
    · have hcarry : sliceNeg k cur ++ [w] ≠ [] := by simp
      obtain ⟨c', t', d', heq', hpre', hjoin'⟩ :=
        ih (sliceNeg k cur ++ [w]) (jlen (sliceNeg k cur) + (w.length + 1)) (Or.inl hcarry)
      refine ⟨cur, c' :: t', [], by simp [chunkLoop, hg, heq'], by simp, ?_⟩
      have hc' : c' = sliceNeg k cur ++ ([w] ++ d') := by
        simpa [List.append_assoc] using hpre'
      rw [hc'] at hjoin' ⊢
      simp only [List.zipWith_cons_cons, List.flatten_cons, List.nil_append]
      rw [List.drop_left]
      simpa [List.append_assoc] using congrArg (fun l => w :: l) hjoin'
    · obtain ⟨c, t, d', heq, hpre, hjoin⟩ := ih (cur ++ [w]) _ (Or.inl (by simp))
      refine ⟨c, t, [w] ++ d', by simpa [chunkLoop, if_neg hg] using heq, ?_, ?_⟩
      · simpa [List.append_assoc] using hpre
      · simpa [List.append_assoc] using hjoin

/-- Overlap invariant of the loop: every chunk begins with the
`slice(-k)` tail of its predecessor. -/
theorem chunkLoop_chain (cs k : Nat) :
    ∀ (ws cur : List Str) (curLen : Nat),
      List.Chain' (fun a b => b.take (sliceNeg k a).length = sliceNeg k a)
        (chunkLoop cs k ws cur curLen) := by
  intro ws
  induction ws with
  | nil =>
    intro cur curLen
    by_cases hc : cur = [] <;> simp [chunkLoop, hc]
  | cons w rest ih =>
    intro cur curLen
    by_cases hg : cs < curLen + w.length ∧ cur ≠ []
    · simp only [chunkLoop, if_pos hg]
      have hcarry : sliceNeg k cur ++ [w] ≠ [] := by simp
      have hne : chunkLoop cs k rest (sliceNeg k cur ++ [w])
          (jlen (sliceNeg k cur) + (w.length + 1)) ≠ [] := by
        intro hnil
        exact hcarry (chunkLoop_eq_nil cs k _ _ _ hnil).2
      obtain ⟨d, t', hd⟩ := chunkLoop_head cs k rest _ _ hne
      have ihh := ih (sliceNeg k cur ++ [w]) (jlen (sliceNeg k cur) + (w.length + 1))
      rw [hd] at ihh
      rw [hd]
      refine (List.chain'_cons).2 ⟨?_, ihh⟩
      rw [List.append_assoc, List.take_left]
    · simp only [chunkLoop, if_neg hg]
      exact ih _ _

/-- Length invariant of the loop: any chunk that gains at least two words
beyond its carried-overlap prefix has joined length at most `cs + 1`. -/
theorem chunkLoop_len (cs k : Nat) :
    ∀ (ws cur : List Str) (curLen : Nat) (pre : List Str),
      jlen cur ≤ curLen →
      (pre.length + 2 ≤ cur.length → jlen cur ≤ cs + 1) →
      (∀ c t, chunkLoop cs k ws cur curLen = c :: t →
          pre.length + 2 ≤ c.length → jlen c ≤ cs + 1)
      ∧ List.Chain' (fun a b => (sliceNeg k a).length + 2 ≤ b.length →
            jlen b ≤ cs + 1)
          (chunkLoop cs k ws cur curLen) := by
  intro ws
  induction ws with
  | nil =>
    intro cur curLen pre _ h2
    by_cases hc : cur = []
    · simp [chunkLoop, hc]
    · simp only [chunkLoop, if_neg hc]
      refine ⟨?_, by simp⟩
      intro c t hct
      simp only [List.cons.injEq] at hct
      rw [← hct.1]
      exact h2
  | cons w rest ih =>
    intro cur curLen pre h1 h2
    by_cases hg : cs < curLen + w.length ∧ cur ≠ []
    · simp only [chunkLoop, if_pos hg]
      have hcne : sliceNeg k cur ≠ [] := sliceNeg_ne_nil k cur hg.2
      have h1' : jlen (sliceNeg k cur ++ [w]) ≤ jlen (sliceNeg k cur) + (w.length + 1) := by
        rw [jlen_append_singleton _ _ hcne]
      have h2' : (sliceNeg k cur).length + 2 ≤ (sliceNeg k cur ++ [w]).length →
          jlen (sliceNeg k cur ++ [w]) ≤ cs + 1 := by
        intro hab
        simp [List.length_append] at hab
      obtain ⟨hdR, chR⟩ := ih (sliceNeg k cur ++ [w])
        (jlen (sliceNeg k cur) + (w.length + 1)) (sliceNeg k cur) h1' h2'
      have hne : chunkLoop cs k rest (sliceNeg k cur ++ [w])
          (jlen (sliceNeg k cur) + (w.length + 1)) ≠ [] := by
        intro hnil
        have := (chunkLoop_eq_nil cs k _ _ _ hnil).2
        simp at this
      refine ⟨?_, ?_⟩
      · intro c t hct
        simp only [List.cons.injEq] at hct
        rw [← hct.1]
        exact h2
      · cases hR : chunkLoop cs k rest (sliceNeg k cur ++ [w])
            (jlen (sliceNeg k cur) + (w.length + 1)) with
        | nil => exact absurd hR hne
        | cons c' t' =>
          rw [hR] at chR
          refine (List.chain'_cons).2 ⟨?_, chR⟩
          exact hdR c' t' hR
    · simp only [chunkLoop, if_neg hg]
      have h1' : jlen (cur ++ [w]) ≤ curLen + (w.length + 1) := by
        by_cases hc : cur = []
        · subst hc
          simp only [List.nil_append, jlen_singleton]
          omega
        · rw [jlen_append_singleton _ _ hc]
          omega
      have h2' : pre.length + 2 ≤ (cur ++ [w]).length → jlen (cur ++ [w]) ≤ cs + 1 := by
        intro hab
        by_cases hc : cur = []
        · subst hc
          simp at hab
        · have hle : curLen + w.length ≤ cs := by
            rcases Decidable.not_and_iff_or_not.mp hg with h | h
            · omega
            · exact absurd hc (by simpa using h)
          rw [jlen_append_singleton _ _ hc]
          omega
      exact ih (cur ++ [w]) (curLen + (w.length + 1)) pre h1' h2'

/-- C3 (amended): a chunk that contains at least two words beyond its
carried-overlap prefix has character length at most `budget + 1` (not
`budget`); the remaining chunks consist of the overlap words carried over
from the previous chunk followed by a single fresh word (for the first
chunk, which has no carry, a single — possibly over-budget — word alone). -/
theorem C3_amended_chunk_bound (t : Str) (cs ov : Nat) :
    (∀ c rest, splitChunksWords cs (ov / 10) t = c :: rest →
        2 ≤ c.length → (joinSep ' ' c).length ≤ cs + 1)
    ∧ List.Chain' (fun a b => (sliceNeg (ov / 10) a).length + 2 ≤ b.length →
          (joinSep ' ' b).length ≤ cs + 1)
        (splitChunksWords cs (ov / 10) t) :=
  chunkLoop_len cs (ov / 10) (wordsOf t) [] 0 []
    (by simp [jlen_nil]) (fun h => absurd h (by decide))

theorem C3_amended_chunk_bound_witness :
    (joinSep ' ' [['a','a'],['b','b']]).length ≤ 5 + 1 :=
  (C3_amended_chunk_bound ("aa bb cc dd").toList 5 10).1
    [['a','a'],['b','b']]
    [[['b','b'],['c','c']],[['c','c'],['d','d']]]
    (by decide) (by decide)

/-- C3 (counterexample): with budget 6 and overlap 10 the transcript
"ab cd e ff" produces the chunk "cd e ff" of length 7 > 6, although it has
three words and none of them exceeds the budget — refuting the claim that
every chunk is within budget except a lone over-budget word. -/
theorem C3_counterexample :
    ¬ (∀ c ∈ splitChunksWords 6 (10 / 10) ("ab cd e ff").toList,
        (joinSep ' ' c).length ≤ 6
        ∨ (c.length = 1 ∧ 6 < (joinSep ' ' c).length)) := by
  decide

/-- C7: consecutive chunks share at least `floor(overlap/10)` words
(the trailing words of one chunk are the leading words of the next)
whenever the earlier chunk has that many words, and dropping every chunk's
carried-overlap prefix and concatenating the remainders, in order,
reconstructs exactly the whitespace-split word sequence of the input. -/
theorem C7_overlap_and_reconstruction (t : Str) (cs ov : Nat) :
    List.Chain' (fun a b => ov / 10 ≤ a.length →
        a.drop (a.length - ov / 10) = b.take (ov / 10))
      (splitChunksWords cs (ov / 10) t)
    ∧ ∀ c rest, splitChunksWords cs (ov / 10) t = c :: rest →
        c ++ (List.zipWith (fun a b => b.drop (sliceNeg (ov / 10) a).length)
          (c :: rest) rest).flatten = wordsOf t := by
  constructor
  · have h := chunkLoop_chain cs (ov / 10) (wordsOf t) [] 0
    refine h.imp ?_
    intro a b hr hk
    by_cases h0 : ov / 10 = 0
    · simp [h0]
    · have hlen : (sliceNeg (ov / 10) a).length = ov / 10 := by
        simp only [sliceNeg, if_neg h0, List.length_drop]
        omega
      rw [hlen] at hr
      rw [hr]
      simp [sliceNeg, if_neg h0]
  · intro c rest hsplit
    obtain ⟨c', t', d, heq, hpre, hjoin⟩ := chunkLoop_reconstruct cs (ov / 10)
      (wordsOf t) [] 0 (Or.inr (wordsOf_ne_nil t))
    simp only [splitChunksWords] at hsplit
    rw [heq] at hsplit
    obtain ⟨hc, hrest⟩ : c' = c ∧ t' = rest := by
      constructor <;> [exact (List.cons.injEq _ _ _ _ ▸ hsplit).1;
        exact (List.cons.injEq _ _ _ _ ▸ hsplit).2]
    subst hc
    subst hrest
    simp only [List.nil_append] at hpre
    rw [← hpre] at hjoin
    exact hjoin

theorem C7_overlap_and_reconstruction_witness :
    [['a','a'],['b','b']] ++
      (List.zipWith (fun a b => b.drop (sliceNeg (10 / 10) a).length)
        ([['a','a'],['b','b']] :: [[['b','b'],['c','c']],[['c','c'],['d','d']]])
        [[['b','b'],['c','c']],[['c','c'],['d','d']]]).flatten
      = wordsOf ("aa bb cc dd").toList :=
  (C7_overlap_and_reconstruction ("aa bb cc dd").toList 5 10).2 _ _ (by decide)

/-! ## The video-reference resolver (src/lib/youtube.ts, `extractVideoId`) -/

/-- JS `String.prototype.trim`: whitespace characters. -/
def isWs (c : Char) : Bool := c.isWhitespace

/-- `s.trim()`. -/
def trimChars (s : Str) : Str :=
  ((s.dropWhile isWs).reverse.dropWhile isWs).reverse

/-- The regex character class `[0-9A-Za-z_-]`. -/
def isIdChar (c : Char) : Bool :=
  ('0' ≤ c ∧ c ≤ '9') ∨ ('A' ≤ c ∧ c ≤ 'Z') ∨ ('a' ≤ c ∧ c ≤ 'z')
    ∨ c = '_' ∨ c = '-'

/-- Characters ending the authority part of a URL. -/
def urlStopChar (c : Char) : Bool := c = '/' ∨ c = '?' ∨ c = '#'

/-- JS `String.prototype.includes`: does `sub` occur contiguously in the
string? -/
def containsSub (sub : Str) : Str → Bool
  | [] => sub.isPrefixOf []
  | c :: t => sub.isPrefixOf (c :: t) || containsSub sub t

/-- The components of a parsed URL that `extractVideoId` reads. -/
structure UrlParts where
  hostname : Str
  pathname : Str
  query : Str
  deriving Repr, DecidableEq

/-- Modelled subset of the WHATWG `new URL` parser used by
`extractVideoId`: absolute `http(s)` URLs with a non-empty host; the port
is stripped from the hostname; an empty path serializes as "/"; the query
is the part between `?` and `#`.  Userinfo, percent-escape decoding,
dot-segment normalization and host lowercasing are outside the modelled
subset (no input considered below needs them); any other scheme is mapped
to a parse failure, which — like a real non-http scheme, whose hostname
would not contain the checked substrings — sends `extractVideoId` to its
regex fallback. -/
def parseAfterScheme (rest : Str) : Option UrlParts :=
  let auth := rest.takeWhile (fun c => !(urlStopChar c))
  let hostname := auth.takeWhile (fun c => c != ':')
  if hostname = [] then none
  else
    let afterAuth := rest.drop auth.length
    let pathRaw := afterAuth.takeWhile (fun c => c != '?' && c != '#')
    let pathname := if pathRaw = [] then ['/'] else pathRaw
    let query :=
      match afterAuth.drop pathRaw.length with
      | '?' :: q => q.takeWhile (fun c => c != '#')
      | _ => []
    some ⟨hostname, pathname, query⟩

/-- See the module comment on `parseAfterScheme`. -/
def parseUrl (s : Str) : Option UrlParts :=
  if ("https://").toList.isPrefixOf s then parseAfterScheme (s.drop 8)
  else if ("http://").toList.isPrefixOf s then parseAfterScheme (s.drop 7)
  else none

/-- `new URLSearchParams(query)` splitting into name/value pairs (values
taken verbatim; no percent decoding is needed for the inputs considered). -/
def queryPairs (q : Str) : List (Str × Str) :=
  (splitOnC '&' q).map (fun piece =>
    let name := piece.takeWhile (fun c => c != '=')
    (name, (piece.drop name.length).drop 1))

/-- `url.searchParams.get(name)`. -/
def getParam (q : Str) (name : Str) : Option Str :=
  ((queryPairs q).find? (fun p => p.1 == name)).map (fun p => p.2)

/-- The `watch?v=` arm of the structured branch
(src/lib/youtube.ts, lines 18-23). -/
def watchCheck (u : UrlParts) : Option Str :=
  if containsSub ("/watch").toList u.pathname then
    match getParam u.query ['v'] with
    | some v => if v ≠ [] ∧ v.length = 11 then some v else none
    | none => none
  else none

/-- The `youtu.be/ID` arm (src/lib/youtube.ts, lines 26-31). -/
def beCheck (u : UrlParts) : Option Str :=
  if u.hostname = ("youtu.be").toList then
    if u.pathname.drop 1 ≠ [] ∧ (u.pathname.drop 1).length = 11 then
      some (u.pathname.drop 1)
    else none
  else none

/-- The `/embed/ID` arm (src/lib/youtube.ts, lines 34-40). -/
def embedCheck (u : UrlParts) : Option Str :=
  if containsSub ("/embed/").toList u.pathname then
    if (splitOnC '/' u.pathname).getLastD [] ≠ []
        ∧ ((splitOnC '/' u.pathname).getLastD []).length = 11 then
      some ((splitOnC '/' u.pathname).getLastD [])
    else none
  else none

/-- The `/shorts/ID` arm (src/lib/youtube.ts, lines 43-49). -/
def shortsCheck (u : UrlParts) : Option Str :=
  if containsSub ("/shorts/").toList u.pathname then
    if (splitOnC '/' u.pathname).getLastD [] ≠ []
        ∧ ((splitOnC '/' u.pathname).getLastD []).length = 11 then
      some ((splitOnC '/' u.pathname).getLastD [])
    else none
  else none

/-- The structured-parsing branch of `extractVideoId`
(src/lib/youtube.ts, lines 12-54).  Each arm returns only when the
candidate is truthy and has length exactly 11; otherwise control falls
through to the next arm and finally to the regex fallback. -/
def urlBranch (t : Str) : Option Str :=
  match parseUrl t with
  | none => none
  | some u =>
    if containsSub ("youtube.com").toList u.hostname
        ∨ containsSub ("youtu.be").toList u.hostname then
      watchCheck u <|> beCheck u <|> embedCheck u <|> shortsCheck u
    else none

/-- The regex `/(?:v=)([0-9A-Za-z_-]{11})(?:&|$)/` attempted at one
position: literal `v=`, exactly eleven class characters, then `&` or the
end of the string. -/
def vEqAt (s : Str) : Option Str :=
  if ("v=").toList.isPrefixOf s then
    if ((s.drop 2).take 11).length = 11 ∧ ((s.drop 2).take 11).all isIdChar
        ∧ ((s.drop 2).drop 11 = [] ∨ ((s.drop 2).drop 11).head? = some '&') then
      some ((s.drop 2).take 11)
    else none
  else none

/-- A regex `/(?:marker)([0-9A-Za-z_-]{11})/` attempted at one position:
the literal marker followed by exactly eleven class characters. -/
def markerAt (marker : Str) (s : Str) : Option Str :=
  if marker.isPrefixOf s then
    if ((s.drop marker.length).take 11).length = 11
        ∧ ((s.drop marker.length).take 11).all isIdChar then
      some ((s.drop marker.length).take 11)
    else none
  else none

/-- Left-to-right scan of an unanchored regex: try the pattern at every
position and return the leftmost match. -/
def scan1 (p : Str → Option Str) : Str → Option Str
  | [] => p []
  | c :: t =>
    match p (c :: t) with
    | some r => some r
    | none => scan1 p t

/-- The anchored pattern `/^([0-9A-Za-z_-]{11})$/`. -/
def fullIdAt (s : Str) : Option Str :=
  if s.length = 11 ∧ s.all isIdChar then some s else none

/-- The ordered regex fallback of `extractVideoId`
(src/lib/youtube.ts, lines 57-72). -/
def regexFallback (t : Str) : Option Str :=
  scan1 vEqAt t
    <|> scan1 (markerAt ("embed/").toList) t
    <|> scan1 (markerAt ("youtu.be/").toList) t
    <|> scan1 (markerAt ("shorts/").toList) t
    <|> fullIdAt t

/-- `extractVideoId(youtube_url)` (src/lib/youtube.ts, lines 10-75),
with `none` standing for the thrown
"Could not extract video ID from URL" error. -/
def extractVideoId (youtube_url : Str) : Option Str :=
  match urlBranch (trimChars youtube_url) with
  | some id => some id
  | none => regexFallback (trimChars youtube_url)

/-! Facts about the resolver. -/

theorem splitOnC_mem_length (sep : Char) :
    ∀ (l : Str), ∀ x ∈ splitOnC sep l, x.length ≤ l.length := by
  intro l
  induction l with
  | nil =>
    intro x hx
    simp [splitOnC] at hx
    simp [hx]
  | cons c t ih =>
    intro x hx
    simp only [splitOnC] at hx
    cases hs : splitOnC sep t with
    | nil => exact absurd hs (splitOnC_ne_nil sep t)
    | cons h r =>
      rw [hs] at hx
      by_cases hc : c = sep
      · simp only [if_pos hc] at hx
        rcases List.mem_cons.1 hx with h1 | h1
        · simp [h1]
        · have := ih x (hs ▸ h1)
          simp only [List.length_cons]
          omega
      · simp only [if_neg hc] at hx
        rcases List.mem_cons.1 hx with h1 | h1
        · have := ih h (hs ▸ List.mem_cons_self h r)
          simp [h1, List.length_cons]
          omega
        · have := ih x (hs ▸ List.mem_cons.2 (Or.inr h1))
          simp only [List.length_cons]
          omega

theorem getParam_some_length (q name v : Str) (h : getParam q name = some v) :
    v.length ≤ q.length := by
  simp only [getParam, Option.map_eq_some'] at h
  obtain ⟨p, hp, hv⟩ := h
  have hmem : p ∈ queryPairs q := List.mem_of_find?_eq_some hp
  simp only [queryPairs, List.mem_map] at hmem
  obtain ⟨piece, hpiece, hpe⟩ := hmem
  have h1 : piece.length ≤ q.length := splitOnC_mem_length '&' q piece hpiece
  have h2 : v.length ≤ piece.length := by
    rw [← hv, ← hpe]
    simp only [List.length_drop]
    omega
  omega

theorem parseAfterScheme_some_facts (rest : Str) (u : UrlParts)
    (h : parseAfterScheme rest = some u) :
    u.pathname.length ≤ rest.length + 1 ∧ u.query.length ≤ rest.length := by
  obtain ⟨uh, up, uq⟩ := u
  show up.length ≤ rest.length + 1 ∧ uq.length ≤ rest.length
  simp only [parseAfterScheme] at h
  by_cases hh : ((rest.takeWhile fun c => !(urlStopChar c)).takeWhile
      fun c => c != ':') = []
  · rw [if_pos hh] at h
    exact absurd h (by simp)
  · rw [if_neg hh] at h
    simp only [Option.some.injEq, UrlParts.mk.injEq] at h
    obtain ⟨h1, h2, h3⟩ := h
    set afterAuth := rest.drop
      (rest.takeWhile fun c => !(urlStopChar c)).length with hAA
    have haal : afterAuth.length ≤ rest.length := by
      rw [hAA]; simp [List.length_drop]
    set pathRaw := afterAuth.takeWhile (fun c => c != '?' && c != '#') with hPR
    have hprl : pathRaw.length ≤ afterAuth.length :=
      (List.takeWhile_sublist _).length_le
    constructor
    · rw [← h2]
      by_cases hpr : pathRaw = []
      · simp [hpr]
      · simp only [if_neg hpr]
        omega
    · rw [← h3]
      split
      · next q hq =>
        have hne : afterAuth.drop pathRaw.length ≠ [] := by simp [hq]
        have hlt := List.length_lt_of_drop_ne_nil hne
        have hlen := congrArg List.length hq
        simp only [List.length_drop, List.length_cons] at hlen
        have htw := (List.takeWhile_sublist (fun c => c != '#') (l := q)).length_le
        omega
      · next => simp

theorem parseUrl_some_facts (t : Str) (u : UrlParts) (h : parseUrl t = some u) :
    u.pathname.length ≤ t.length ∧ u.query.length ≤ t.length := by
  unfold parseUrl at h
  split at h
  · next hpre =>
    have h8 : 8 ≤ t.length := by
      have := (List.isPrefixOf_iff_prefix.1 hpre).length_le
      simpa using this
    have := parseAfterScheme_some_facts _ _ h
    simp only [List.length_drop] at this
    omega
  · split at h
    · next hpre =>
      have h7 : 7 ≤ t.length := by
        have := (List.isPrefixOf_iff_prefix.1 hpre).length_le
        simpa using this
      have := parseAfterScheme_some_facts _ _ h
      simp only [List.length_drop] at this
      omega
    · exact absurd h (by simp)

theorem watchCheck_some (u : UrlParts) (v : Str) (h : watchCheck u = some v) :
    v.length = 11 ∧ v.length ≤ u.query.length := by
  unfold watchCheck at h
  split at h
  · cases hg : getParam u.query ['v'] with
    | none =>
      rw [hg] at h
      change (none : Option Str) = some v at h
      exact absurd h (by simp)
    | some w =>
      rw [hg] at h
      change (if w ≠ [] ∧ w.length = 11 then some w else none) = some v at h
      split at h
      · rename_i hcond
        obtain rfl : w = v := by
          cases h
          rfl
        exact ⟨hcond.2, getParam_some_length _ _ _ hg⟩
      · exact absurd h (by simp)
  · exact absurd h (by simp)

theorem beCheck_some (u : UrlParts) (v : Str) (h : beCheck u = some v) :
    v.length = 11 ∧ v.length + 1 ≤ u.pathname.length := by
  unfold beCheck at h
  split at h
  · split at h
    · rename_i hcond
      obtain rfl : u.pathname.drop 1 = v := by
        cases h
        rfl
      refine ⟨hcond.2, ?_⟩
      have hld := List.length_drop 1 u.pathname
      have hpos : 1 < u.pathname.length :=
        List.length_lt_of_drop_ne_nil hcond.1
      omega
    · exact absurd h (by simp)
  · exact absurd h (by simp)

theorem lastPieceCheck_some (p : Str) (v : Str)
    (hv : (splitOnC '/' p).getLastD [] = v) (hne : v ≠ []) :
    v.length ≤ p.length := by
  cases hs : splitOnC '/' p with
  | nil => exact absurd hs (splitOnC_ne_nil '/' p)
  | cons a l =>
    rw [hs] at hv
    have hmem : v ∈ [] :: a :: l := hv ▸ List.getLastD_mem_cons (a := ([] : Str)) (l := a :: l)
    rcases List.mem_cons.1 hmem with h1 | h1
    · exact absurd h1.symm (by simpa using hne)
    · exact splitOnC_mem_length '/' p v (hs ▸ h1)

theorem embedCheck_some (u : UrlParts) (v : Str) (h : embedCheck u = some v) :
    v.length = 11 ∧ v.length ≤ u.pathname.length := by
  unfold embedCheck at h
  split at h
  · split at h
    · rename_i hcond
      obtain rfl : (splitOnC '/' u.pathname).getLastD [] = v := by
        cases h
        rfl
      exact ⟨hcond.2, lastPieceCheck_some _ _ rfl hcond.1⟩
    · exact absurd h (by simp)
  · exact absurd h (by simp)

theorem shortsCheck_some (u : UrlParts) (v : Str) (h : shortsCheck u = some v) :
    v.length = 11 ∧ v.length ≤ u.pathname.length := by
  unfold shortsCheck at h
  split at h
  · split at h
    · rename_i hcond
      obtain rfl : (splitOnC '/' u.pathname).getLastD [] = v := by
        cases h
        rfl
      exact ⟨hcond.2, lastPieceCheck_some _ _ rfl hcond.1⟩
    · exact absurd h (by simp)
  · exact absurd h (by simp)

theorem urlBranch_some (t id : Str) (h : urlBranch t = some id) :
    id.length = 11 ∧ 11 ≤ t.length := by
  unfold urlBranch at h
  split at h
  · exact absurd h (by simp)
  · rename_i u hp
    obtain ⟨hpath, hquery⟩ := parseUrl_some_facts t u hp
    split at h
    · rw [Option.orElse_eq_some] at h
      rcases h with h | ⟨_, h⟩
      · obtain ⟨h11, hle⟩ := watchCheck_some u id h
        exact ⟨h11, by omega⟩
      · rw [Option.orElse_eq_some] at h
        rcases h with h | ⟨_, h⟩
        · obtain ⟨h11, hle⟩ := beCheck_some u id h
          exact ⟨h11, by omega⟩
        · rw [Option.orElse_eq_some] at h
          rcases h with h | ⟨_, h⟩
          · obtain ⟨h11, hle⟩ := embedCheck_some u id h
            exact ⟨h11, by omega⟩
          · obtain ⟨h11, hle⟩ := shortsCheck_some u id h
            exact ⟨h11, by omega⟩
    · exact absurd h (by simp)

/-- A successful unanchored scan is a successful pattern match on some
suffix of the scanned string. -/
theorem scan1_some (p : Str → Option Str) :
    ∀ (t r : Str), scan1 p t = some r → ∃ s', s' <:+ t ∧ p s' = some r := by
  intro t
  induction t with
  | nil =>
    intro r h
    exact ⟨[], List.nil_suffix, h⟩
  | cons c t' ih =>
    intro r h
    simp only [scan1] at h
    cases hp : p (c :: t') with
    | some x =>
      rw [hp] at h
      change some x = some r at h
      cases h
      exact ⟨c :: t', List.suffix_refl _, hp⟩
    | none =>
      rw [hp] at h
      change scan1 p t' = some r at h
      obtain ⟨s', hs', hps'⟩ := ih r h
      exact ⟨s', hs'.trans (List.suffix_cons c t'), hps'⟩

theorem vEqAt_some (s v : Str) (h : vEqAt s = some v) :
    v.length = 11 ∧ v.all isIdChar = true ∧ 11 ≤ s.length := by
  unfold vEqAt at h
  split at h
  · split at h
    · rename_i hcond
      obtain rfl : (s.drop 2).take 11 = v := by
        cases h
        rfl
      refine ⟨hcond.1, hcond.2.1, ?_⟩
      have h1 := hcond.1
      have := List.length_take 11 (s.drop 2)
      have := List.length_drop 2 s
      omega
    · exact absurd h (by simp)
  · exact absurd h (by simp)

theorem markerAt_some (m s v : Str) (h : markerAt m s = some v) :
    v.length = 11 ∧ v.all isIdChar = true ∧ 11 ≤ s.length := by
  unfold markerAt at h
  split at h
  · split at h
    · rename_i hcond
      obtain rfl : (s.drop m.length).take 11 = v := by
        cases h
        rfl
      refine ⟨hcond.1, hcond.2, ?_⟩
      have h1 := hcond.1
      have := List.length_take 11 (s.drop m.length)
      have := List.length_drop m.length s
      omega
    · exact absurd h (by simp)
  · exact absurd h (by simp)

theorem regexFallback_some (t id : Str) (h : regexFallback t = some id) :
    id.length = 11 ∧ id.all isIdChar = true ∧ 11 ≤ t.length := by
  unfold regexFallback at h
  rw [Option.orElse_eq_some] at h
  rcases h with h | ⟨_, h⟩
  · obtain ⟨s', hs', hps'⟩ := scan1_some _ _ _ h
    obtain ⟨h1, h2, h3⟩ := vEqAt_some s' id hps'
    exact ⟨h1, h2, by have := hs'.length_le; omega⟩
  rw [Option.orElse_eq_some] at h
  rcases h with h | ⟨_, h⟩
  · obtain ⟨s', hs', hps'⟩ := scan1_some _ _ _ h
    obtain ⟨h1, h2, h3⟩ := markerAt_some _ s' id hps'
    exact ⟨h1, h2, by have := hs'.length_le; omega⟩
  rw [Option.orElse_eq_some] at h
  rcases h with h | ⟨_, h⟩
  · obtain ⟨s', hs', hps'⟩ := scan1_some _ _ _ h
    obtain ⟨h1, h2, h3⟩ := markerAt_some _ s' id hps'
    exact ⟨h1, h2, by have := hs'.length_le; omega⟩
  rw [Option.orElse_eq_some] at h
  rcases h with h | ⟨_, h⟩
  · obtain ⟨s', hs', hps'⟩ := scan1_some _ _ _ h
    obtain ⟨h1, h2, h3⟩ := markerAt_some _ s' id hps'
    exact ⟨h1, h2, by have := hs'.length_le; omega⟩
  · unfold fullIdAt at h
    split at h
    · rename_i hcond
      obtain rfl : t = id := by
        cases h
        rfl
      exact ⟨hcond.1, hcond.2, by omega⟩
    · exact absurd h (by simp)

/-- C4 (counterexample): the input `https://youtu.be/aaaaa.aaaaa` contains
a character outside `[0-9A-Za-z_-]`, yet `extractVideoId` succeeds — the
structured URL branch checks only the length of the path segment — and even
returns an identifier containing the disallowed character. -/
theorem C4_counterexample :
    extractVideoId ("https://youtu.be/aaaaa.aaaaa").toList
      = some (("aaaaa.aaaaa").toList)
    ∧ isIdChar '.' = false := by
  constructor
  · decide
  · decide

/-- C4 (amended): `extractVideoId` fails on every input shorter than 11
characters after trimming; every successfully returned identifier has
exactly 11 characters; and whenever the structured URL branch does not
return (in particular when URL parsing fails), the identifier produced by
the regex fallback lies in `[0-9A-Za-z_-]`.  The URL branch itself checks
only the length, so disallowed characters can survive it (see the
counterexample). -/
theorem C4_amended_resolver (s : Str) :
    (∀ id, extractVideoId s = some id → id.length = 11)
    ∧ ((trimChars s).length < 11 → extractVideoId s = none)
    ∧ (∀ id, urlBranch (trimChars s) = none → extractVideoId s = some id →
        id.all isIdChar = true) := by
  refine ⟨?_, ?_, ?_⟩
  · intro id h
    unfold extractVideoId at h
    split at h
    · rename_i x hx
      cases h
      exact (urlBranch_some _ _ hx).1
    · exact (regexFallback_some _ _ h).1
  · intro hlt
    cases hext : extractVideoId s with
    | none => rfl
    | some id =>
      exfalso
      unfold extractVideoId at hext
      split at hext
      · rename_i x hx
        have := (urlBranch_some _ _ hx).2
        omega
      · have := (regexFallback_some _ _ hext).2.2
        omega
  · intro id hnone h
    unfold extractVideoId at h
    split at h
    · rename_i x hx
      rw [hnone] at hx
      exact absurd hx (by simp)
    · exact (regexFallback_some _ _ h).2.1

theorem C4_amended_resolver_witness :
    (trimChars ("hi").toList).length < 11
      ∧ extractVideoId ("hi").toList = none :=
  ⟨by decide, (C4_amended_resolver ("hi").toList).2.1 (by decide)⟩

/-! Evaluation lemmas used for the supported URL shapes. -/

theorem takeWhile_all (p : α → Bool) (l : List α) (h : ∀ c ∈ l, p c = true) :
    l.takeWhile p = l := by
  induction l with
  | nil => rfl
  | cons a t ih =>
    rw [List.takeWhile_cons_of_pos (h a (by simp))]
    rw [ih (fun c hc => h c (by simp [hc]))]

theorem dropWhile_all_neg (p : α → Bool) (l : List α) (h : ∀ c ∈ l, p c = false) :
    l.dropWhile p = l := by
  cases l with
  | nil => rfl
  | cons a t => exact List.dropWhile_cons_of_neg (by simp [h a (by simp)])

theorem trimChars_eq_self (s : Str) (h : ∀ c ∈ s, isWs c = false) :
    trimChars s = s := by
  unfold trimChars
  rw [dropWhile_all_neg _ _ h]
  rw [dropWhile_all_neg _ _ (fun c hc => h c (List.mem_reverse.1 hc))]
  exact List.reverse_reverse s

theorem isIdChar_not_ws (c : Char) (h : isIdChar c = true) : isWs c = false := by
  cases hw : isWs c
  · rfl
  · exfalso
    have hw' : c.isWhitespace = true := hw
    unfold Char.isWhitespace at hw'
    simp only [Bool.or_eq_true, decide_eq_true_eq] at hw'
    rcases hw' with ((h1 | h1) | h1) | h1 <;> (subst h1; exact absurd h (by decide))

theorem isIdChar_ne (c x : Char) (h : isIdChar c = true) (hx : isIdChar x = false) :
    c ≠ x := by
  intro hc
  subst hc
  rw [h] at hx
  simp at hx

theorem parseUrl_https (rest : Str) :
    parseUrl (("https://").toList ++ rest) = parseAfterScheme rest := by
  unfold parseUrl
  rw [if_pos (List.isPrefixOf_iff_prefix.2 (List.prefix_append _ _))]
  rw [show (8 : Nat) = ("https://").toList.length from rfl, List.drop_left]

theorem parseAfterScheme_eval_noquery (host path : Str) (hhost : host ≠ [])
    (hhostok : ∀ c ∈ host, (!(urlStopChar c)) = true ∧ (c != ':') = true)
    (hpath : ∃ p', path = '/' :: p')
    (hpathok : ∀ c ∈ path, (c != '?' && c != '#') = true) :
    parseAfterScheme (host ++ path) = some ⟨host, path, []⟩ := by
  obtain ⟨p', rfl⟩ := hpath
  simp only [parseAfterScheme]
  have hauth : (host ++ '/' :: p').takeWhile (fun c => !(urlStopChar c)) = host := by
    rw [List.takeWhile_append_of_pos (fun c hc => (hhostok c hc).1)]
    show host ++ ([] : Str) = host
    exact List.append_nil host
  rw [hauth]
  rw [takeWhile_all _ host (fun c hc => (hhostok c hc).2)]
  rw [if_neg hhost]
  rw [List.drop_left]
  rw [takeWhile_all _ _ hpathok]
  rw [if_neg (by simp)]
  rw [List.drop_length]

theorem parseAfterScheme_eval_query (host path q : Str) (hhost : host ≠ [])
    (hhostok : ∀ c ∈ host, (!(urlStopChar c)) = true ∧ (c != ':') = true)
    (hpath : ∃ p', path = '/' :: p')
    (hpathok : ∀ c ∈ path, (c != '?' && c != '#') = true)
    (hq : ∀ c ∈ q, (c != '#') = true) :
    parseAfterScheme (host ++ path ++ '?' :: q) = some ⟨host, path, q⟩ := by
  obtain ⟨p', rfl⟩ := hpath
  simp only [parseAfterScheme]
  rw [List.append_assoc]
  have hauth : (host ++ ('/' :: p' ++ '?' :: q)).takeWhile
      (fun c => !(urlStopChar c)) = host := by
    rw [List.takeWhile_append_of_pos (fun c hc => (hhostok c hc).1)]
    show host ++ ([] : Str) = host
    exact List.append_nil host
  rw [hauth]
  rw [takeWhile_all _ host (fun c hc => (hhostok c hc).2)]
  rw [if_neg hhost]
  rw [List.drop_left]
  have hpr : ('/' :: p' ++ '?' :: q).takeWhile (fun c => c != '?' && c != '#')
      = '/' :: p' := by
    rw [List.takeWhile_append_of_pos hpathok]
    show ('/' :: p') ++ ([] : Str) = '/' :: p'
    exact List.append_nil _
  rw [hpr]
  rw [if_neg (by simp)]
  rw [List.drop_left]
  show some (UrlParts.mk host ('/' :: p') (q.takeWhile (fun c => c != '#')))
      = some (UrlParts.mk host ('/' :: p') q)
  rw [takeWhile_all _ q hq]

theorem splitOnC_no_sep (sep : Char) (l : Str) (h : ∀ c ∈ l, c ≠ sep) :
    splitOnC sep l = [l] := by
  induction l with
  | nil => rfl
  | cons c t ih =>
    simp only [splitOnC]
    rw [ih (fun x hx => h x (by simp [hx]))]
    show (if c = sep then [] :: t :: [] else (c :: t) :: []) = [c :: t]
    rw [if_neg (h c (by simp))]

theorem splitOnC_append_sep (sep : Char) (xs ys : Str) (h : ∀ c ∈ xs, c ≠ sep) :
    splitOnC sep (xs ++ sep :: ys) = xs :: splitOnC sep ys := by
  induction xs with
  | nil =>
    simp only [List.nil_append, splitOnC]
    cases hs : splitOnC sep ys with
    | nil => exact absurd hs (splitOnC_ne_nil sep ys)
    | cons a l => simp
  | cons c xs' ih =>
    have hih := ih (fun x hx => h x (by simp [hx]))
    simp only [List.cons_append, splitOnC, List.append_eq, hih]
    show (if c = sep then [] :: xs' :: splitOnC sep ys
        else (c :: xs') :: splitOnC sep ys) = (c :: xs') :: splitOnC sep ys
    rw [if_neg (h c (by simp))]

theorem getParam_v_first (id suffix : Str)
    (hid : ∀ c ∈ id, c ≠ '&' ∧ c ≠ '=')
    (hsuf : suffix = [] ∨ ∃ s', suffix = '&' :: s') :
    getParam (('v' :: '=' :: id) ++ suffix) ['v'] = some id := by
  have hno : ∀ c ∈ 'v' :: '=' :: id, c ≠ '&' := by
    intro c hc
    rcases List.mem_cons.1 hc with rfl | hc
    · decide
    rcases List.mem_cons.1 hc with rfl | hc
    · decide
    · exact (hid c hc).1
  rcases hsuf with rfl | ⟨s', rfl⟩
  · rw [List.append_nil]
    unfold getParam queryPairs
    rw [splitOnC_no_sep '&' _ hno]
    rfl
  · unfold getParam queryPairs
    rw [splitOnC_append_sep '&' _ _ hno]
    rfl

theorem scan1_none (p : Str → Option Str) :
    ∀ (t : Str), (∀ s', s' <:+ t → p s' = none) → scan1 p t = none := by
  intro t
  induction t with
  | nil =>
    intro h
    exact h [] (List.suffix_refl [])
  | cons c t' ih =>
    intro h
    simp only [scan1]
    rw [h (c :: t') (List.suffix_refl _)]
    exact ih (fun s' hs' => h s' (hs'.trans (List.suffix_cons c t')))

theorem scan1_head_some (p : Str → Option Str) (t r : Str) (h : p t = some r) :
    scan1 p t = some r := by
  cases t with
  | nil => exact h
  | cons c t' =>
    simp only [scan1]
    rw [h]

theorem scan1_append (p : Str → Option Str) :
    ∀ (xs ys : Str), (∀ i, i < xs.length → p (xs.drop i ++ ys) = none) →
      scan1 p (xs ++ ys) = scan1 p ys := by
  intro xs
  induction xs with
  | nil => intro ys _; rfl
  | cons c xs' ih =>
    intro ys h
    show scan1 p (c :: (xs' ++ ys)) = scan1 p ys
    simp only [scan1]
    rw [show p (c :: (xs' ++ ys)) = none from h 0 (by simp)]
    exact ih ys (fun i hi => h (i + 1) (by simpa using hi))

theorem vEq_scan_none (t : Str) (h : ∀ c ∈ t, c ≠ '=') :
    scan1 vEqAt t = none := by
  apply scan1_none
  intro s' hs'
  unfold vEqAt
  rw [if_neg]
  intro hpre
  have : '=' ∈ s' := (List.isPrefixOf_iff_prefix.1 hpre).subset (by decide)
  exact h '=' (hs'.subset this) rfl

theorem marker_scan_none (m t : Str) (c : Char) (hcm : c ∈ m)
    (hct : ∀ x ∈ t, x ≠ c) : scan1 (markerAt m) t = none := by
  apply scan1_none
  intro s' hs'
  unfold markerAt
  rw [if_neg]
  intro hpre
  have : c ∈ s' := (List.isPrefixOf_iff_prefix.1 hpre).subset hcm
  exact hct c (hs'.subset this) rfl

theorem markerAt_hit (m ys : Str) (hlen : 11 ≤ ys.length)
    (hall : ∀ c ∈ ys, isIdChar c = true) :
    markerAt m (m ++ ys) = some (ys.take 11) := by
  unfold markerAt
  rw [if_pos (List.isPrefixOf_iff_prefix.2 (List.prefix_append _ _))]
  rw [List.drop_left]
  rw [if_pos]
  constructor
  · simp [List.length_take]
    omega
  · rw [List.all_eq_true]
    intro c hc
    exact hall c ((List.take_sublist 11 ys).subset hc)

/-- Reduce the body of `urlBranch` once the URL has parsed and the
hostname check has passed. -/
theorem urlBranch_eval (t : Str) (u : UrlParts) (hp : parseUrl t = some u)
    (hhost : containsSub ("youtube.com").toList u.hostname = true
      ∨ containsSub ("youtu.be").toList u.hostname = true) :
    urlBranch t = (watchCheck u <|> beCheck u <|> embedCheck u <|> shortsCheck u) := by
  unfold urlBranch
  rw [hp]
  show (if containsSub ("youtube.com").toList u.hostname
        ∨ containsSub ("youtu.be").toList u.hostname then
      watchCheck u <|> beCheck u <|> embedCheck u <|> shortsCheck u
    else none) = _
  rw [if_pos hhost]

theorem urlBranch_none_of_parse (t : Str) (hp : parseUrl t = none) :
    urlBranch t = none := by
  unfold urlBranch
  rw [hp]

theorem watchCheck_eval_some (host path q id : Str)
    (hwatch : containsSub ("/watch").toList path = true)
    (hget : getParam q ['v'] = some id) (h11 : id.length = 11) (hne : id ≠ []) :
    watchCheck ⟨host, path, q⟩ = some id := by
  unfold watchCheck
  show (if containsSub ("/watch").toList path then
      match getParam q ['v'] with
      | some v => if v ≠ [] ∧ v.length = 11 then some v else none
      | none => none
    else none) = some id
  rw [if_pos hwatch, hget]
  show (if id ≠ [] ∧ id.length = 11 then some id else none) = some id
  rw [if_pos ⟨hne, h11⟩]

theorem watchCheck_none_of_no_v (host path q : Str)
    (hget : getParam q ['v'] = none) : watchCheck ⟨host, path, q⟩ = none := by
  unfold watchCheck
  show (if containsSub ("/watch").toList path then
      match getParam q ['v'] with
      | some v => if v ≠ [] ∧ v.length = 11 then some v else none
      | none => none
    else none) = none
  split
  · rw [hget]
  · rfl

theorem beCheck_eval_some (q id : Str) (h11 : id.length = 11) (hne : id ≠ []) :
    beCheck ⟨("youtu.be").toList, '/' :: id, q⟩ = some id := by
  unfold beCheck
  show (if ("youtu.be").toList = ("youtu.be").toList then
      if id ≠ [] ∧ id.length = 11 then some id else none
    else none) = some id
  rw [if_pos rfl, if_pos ⟨hne, h11⟩]

theorem beCheck_none_host (host path q : Str)
    (hne : host ≠ ("youtu.be").toList) : beCheck ⟨host, path, q⟩ = none := by
  unfold beCheck
  show (if host = ("youtu.be").toList then
      if path.drop 1 ≠ [] ∧ (path.drop 1).length = 11 then some (path.drop 1)
      else none
    else none) = none
  rw [if_neg hne]

theorem beCheck_none_len (q id : Str) (hlen : id.length ≠ 11) :
    beCheck ⟨("youtu.be").toList, '/' :: id, q⟩ = none := by
  unfold beCheck
  show (if ("youtu.be").toList = ("youtu.be").toList then
      if id ≠ [] ∧ id.length = 11 then some id else none
    else none) = none
  rw [if_pos rfl, if_neg (fun hcon => hlen hcon.2)]

theorem embedCheck_eval_some (host path q id : Str)
    (hcont : containsSub ("/embed/").toList path = true)
    (hlast : (splitOnC '/' path).getLastD [] = id)
    (h11 : id.length = 11) (hne : id ≠ []) :
    embedCheck ⟨host, path, q⟩ = some id := by
  unfold embedCheck
  show (if containsSub ("/embed/").toList path then
      if (splitOnC '/' path).getLastD [] ≠ []
          ∧ ((splitOnC '/' path).getLastD []).length = 11 then
        some ((splitOnC '/' path).getLastD [])
      else none
    else none) = some id
  rw [if_pos hcont, hlast, if_pos ⟨hne, h11⟩]

theorem embedCheck_none_lastlen (host path q : Str)
    (hlen : ((splitOnC '/' path).getLastD []).length ≠ 11) :
    embedCheck ⟨host, path, q⟩ = none := by
  unfold embedCheck
  show (if containsSub ("/embed/").toList path then
      if (splitOnC '/' path).getLastD [] ≠ []
          ∧ ((splitOnC '/' path).getLastD []).length = 11 then
        some ((splitOnC '/' path).getLastD [])
      else none
    else none) = none
  split
  · rw [if_neg (fun hcon => hlen hcon.2)]
  · rfl

theorem shortsCheck_eval_some (host path q id : Str)
    (hcont : containsSub ("/shorts/").toList path = true)
    (hlast : (splitOnC '/' path).getLastD [] = id)
    (h11 : id.length = 11) (hne : id ≠ []) :
    shortsCheck ⟨host, path, q⟩ = some id := by
  unfold shortsCheck
  show (if containsSub ("/shorts/").toList path then
      if (splitOnC '/' path).getLastD [] ≠ []
          ∧ ((splitOnC '/' path).getLastD []).length = 11 then
        some ((splitOnC '/' path).getLastD [])
      else none
    else none) = some id
  rw [if_pos hcont, hlast, if_pos ⟨hne, h11⟩]

theorem shortsCheck_none_lastlen (host path q : Str)
    (hlen : ((splitOnC '/' path).getLastD []).length ≠ 11) :
    shortsCheck ⟨host, path, q⟩ = none := by
  unfold shortsCheck
  show (if containsSub ("/shorts/").toList path then
      if (splitOnC '/' path).getLastD [] ≠ []
          ∧ ((splitOnC '/' path).getLastD []).length = 11 then
        some ((splitOnC '/' path).getLastD [])
      else none
    else none) = none
  split
  · rw [if_neg (fun hcon => hlen hcon.2)]
  · rfl

theorem extractVideoId_of_urlBranch (s id : Str) (htrim : trimChars s = s)
    (hu : urlBranch s = some id) : extractVideoId s = some id := by
  unfold extractVideoId
  rw [htrim, hu]

theorem extractVideoId_of_fallback (s id : Str) (htrim : trimChars s = s)
    (hnone : urlBranch s = none) (hf : regexFallback s = some id) :
    extractVideoId s = some id := by
  unfold extractVideoId
  rw [htrim, hnone]
  exact hf

theorem isIdChar_all_ne (id : Str) (hall : ∀ c ∈ id, isIdChar c = true) :
    ∀ c ∈ id, c ≠ '&' ∧ c ≠ '=' ∧ c ≠ '#' ∧ c ≠ '/' ∧ c ≠ '?' := by
  intro c hc
  have h := hall c hc
  exact ⟨isIdChar_ne c '&' h (by decide), isIdChar_ne c '=' h (by decide),
    isIdChar_ne c '#' h (by decide), isIdChar_ne c '/' h (by decide),
    isIdChar_ne c '?' h (by decide)⟩

theorem extract_watch (id suffix : Str) (h11 : id.length = 11)
    (hall : ∀ c ∈ id, isIdChar c = true)
    (hsuf : suffix = [] ∨ ∃ s', suffix = '&' :: s')
    (hsufok : ∀ c ∈ suffix, isWs c = false ∧ c ≠ '#') :
    extractVideoId (("https://www.youtube.com/watch?v=").toList ++ id ++ suffix)
      = some id := by
  have hne : id ≠ [] := by
    intro h
    rw [h] at h11
    simp at h11
  have hA : ∀ c ∈ ("https://www.youtube.com/watch?v=").toList,
      isWs c = false := by decide
  have htrim : trimChars
      (("https://www.youtube.com/watch?v=").toList ++ id ++ suffix)
      = ("https://www.youtube.com/watch?v=").toList ++ id ++ suffix := by
    apply trimChars_eq_self
    intro c hc
    rcases List.mem_append.1 hc with hc | hc
    · rcases List.mem_append.1 hc with hc | hc
      · exact hA c hc
      · exact isIdChar_not_ws c (hall c hc)
    · exact (hsufok c hc).1
  apply extractVideoId_of_urlBranch _ _ htrim
  have hb : ("https://www.youtube.com/watch?v=").toList ++ id ++ suffix
      = ("https://").toList ++ (("www.youtube.com").toList
        ++ (("/watch").toList ++ '?' :: (('v' :: '=' :: id) ++ suffix))) := by
    rw [List.append_assoc]
    rfl
  rw [hb]
  have hq : ∀ c ∈ ('v' :: '=' :: id) ++ suffix, (c != '#') = true := by
    intro c hc
    rcases List.mem_append.1 hc with hc | hc
    · rcases List.mem_cons.1 hc with rfl | hc
      · decide
      rcases List.mem_cons.1 hc with rfl | hc
      · decide
      · exact bne_iff_ne.2 (isIdChar_all_ne id hall c hc).2.2.1
    · exact bne_iff_ne.2 (hsufok c hc).2
  have hp : parseUrl (("https://").toList ++ (("www.youtube.com").toList
        ++ (("/watch").toList ++ '?' :: (('v' :: '=' :: id) ++ suffix))))
      = some ⟨("www.youtube.com").toList, ("/watch").toList,
          ('v' :: '=' :: id) ++ suffix⟩ := by
    rw [parseUrl_https]
    exact parseAfterScheme_eval_query ("www.youtube.com").toList
      ("/watch").toList (('v' :: '=' :: id) ++ suffix)
      (by decide) (by decide) ⟨("watch").toList, rfl⟩ (by decide) hq
  rw [urlBranch_eval _ _ hp (Or.inl (show containsSub ("youtube.com").toList
    (("www.youtube.com").toList) = true by decide))]
  rw [watchCheck_eval_some ("www.youtube.com").toList ("/watch").toList
    (('v' :: '=' :: id) ++ suffix) id (by decide)
    (getParam_v_first id suffix
      (fun c hc => ⟨(isIdChar_all_ne id hall c hc).1,
        (isIdChar_all_ne id hall c hc).2.1⟩) hsuf)
    h11 hne]
  rfl

theorem embedCheck_none_cont (host path q : Str)
    (hcf : containsSub ("/embed/").toList path = false) :
    embedCheck ⟨host, path, q⟩ = none := by
  unfold embedCheck
  show (if containsSub ("/embed/").toList path then
      if (splitOnC '/' path).getLastD [] ≠ []
          ∧ ((splitOnC '/' path).getLastD []).length = 11 then
        some ((splitOnC '/' path).getLastD [])
      else none
    else none) = none
  have hnc : ¬ (containsSub ("/embed/").toList path = true) := by
    rw [hcf]
    simp
  rw [if_neg hnc]

theorem pathok_with_id (pre id : Str)
    (hpre : ∀ c ∈ pre, (c != '?' && c != '#') = true)
    (hall : ∀ c ∈ id, isIdChar c = true) :
    ∀ c ∈ pre ++ id, (c != '?' && c != '#') = true := by
  intro c hc
  rcases List.mem_append.1 hc with hc | hc
  · exact hpre c hc
  · have h := isIdChar_all_ne id hall c hc
    rw [Bool.and_eq_true]
    exact ⟨bne_iff_ne.2 h.2.2.2.2, bne_iff_ne.2 h.2.2.1⟩

theorem ne_nil_of_len11 (id : Str) (h11 : id.length = 11) : id ≠ [] := by
  intro h
  rw [h] at h11
  simp at h11

theorem trim_concrete_id (a b id : Str) (ha : ∀ c ∈ a, isWs c = false)
    (hb : ∀ c ∈ b, isWs c = false) (hall : ∀ c ∈ id, isIdChar c = true) :
    trimChars (a ++ id ++ b) = a ++ id ++ b := by
  apply trimChars_eq_self
  intro c hc
  rcases List.mem_append.1 hc with hc | hc
  · rcases List.mem_append.1 hc with hc | hc
    · exact ha c hc
    · exact isIdChar_not_ws c (hall c hc)
  · exact hb c hc

theorem extract_be (id : Str) (h11 : id.length = 11)
    (hall : ∀ c ∈ id, isIdChar c = true) :
    extractVideoId (("https://youtu.be/").toList ++ id) = some id := by
  have hne := ne_nil_of_len11 id h11
  have htrim := trim_concrete_id ("https://youtu.be/").toList [] id
    (by decide) (by decide) hall
  rw [List.append_nil] at htrim
  apply extractVideoId_of_urlBranch _ _ htrim
  have hpathok : ∀ c ∈ '/' :: id, (c != '?' && c != '#') = true := by
    intro c hc
    rcases List.mem_cons.1 hc with rfl | hc
    · decide
    · have h := isIdChar_all_ne id hall c hc
      rw [Bool.and_eq_true]
      exact ⟨bne_iff_ne.2 h.2.2.2.2, bne_iff_ne.2 h.2.2.1⟩
  have hp : parseUrl (("https://youtu.be/").toList ++ id)
      = some ⟨("youtu.be").toList, '/' :: id, []⟩ := by
    show parseUrl (("https://").toList ++ (("youtu.be").toList ++ '/' :: id))
      = some ⟨("youtu.be").toList, '/' :: id, []⟩
    rw [parseUrl_https]
    exact parseAfterScheme_eval_noquery ("youtu.be").toList ('/' :: id)
      (by decide) (by decide) ⟨id, rfl⟩ hpathok
  rw [urlBranch_eval _ _ hp (Or.inr (show containsSub ("youtu.be").toList
    (("youtu.be").toList) = true by decide))]
  rw [watchCheck_none_of_no_v ("youtu.be").toList ('/' :: id) []
    (by decide), Option.none_orElse]
  rw [beCheck_eval_some [] id h11 hne]
  rfl

theorem extract_be_t (id : Str) (h11 : id.length = 11)
    (hall : ∀ c ∈ id, isIdChar c = true) :
    extractVideoId (("https://youtu.be/").toList ++ id ++ ("?t=16s").toList)
      = some id := by
  have hne := ne_nil_of_len11 id h11
  have htrim := trim_concrete_id ("https://youtu.be/").toList
    ("?t=16s").toList id (by decide) (by decide) hall
  apply extractVideoId_of_urlBranch _ _ htrim
  have hb : ("https://youtu.be/").toList ++ id ++ ("?t=16s").toList
      = ("https://").toList ++ (("youtu.be").toList
        ++ (('/' :: id) ++ '?' :: ("t=16s").toList)) := by
    rw [List.append_assoc]
    rfl
  rw [hb]
  have hpathok : ∀ c ∈ '/' :: id, (c != '?' && c != '#') = true := by
    intro c hc
    rcases List.mem_cons.1 hc with rfl | hc
    · decide
    · have h := isIdChar_all_ne id hall c hc
      rw [Bool.and_eq_true]
      exact ⟨bne_iff_ne.2 h.2.2.2.2, bne_iff_ne.2 h.2.2.1⟩
  have hp : parseUrl (("https://").toList ++ (("youtu.be").toList
        ++ (('/' :: id) ++ '?' :: ("t=16s").toList)))
      = some ⟨("youtu.be").toList, '/' :: id, ("t=16s").toList⟩ := by
    rw [parseUrl_https]
    exact parseAfterScheme_eval_query ("youtu.be").toList ('/' :: id)
      ("t=16s").toList (by decide) (by decide) ⟨id, rfl⟩ hpathok (by decide)
  rw [urlBranch_eval _ _ hp (Or.inr (show containsSub ("youtu.be").toList
    (("youtu.be").toList) = true by decide))]
  rw [watchCheck_none_of_no_v ("youtu.be").toList ('/' :: id)
    ("t=16s").toList (by decide), Option.none_orElse]
  rw [beCheck_eval_some ("t=16s").toList id h11 hne]
  rfl

theorem split_path_seg (marker seg : Str)
    (hm : ∀ c ∈ marker, c ≠ '/')
    (hseg : ∀ c ∈ seg, c ≠ '/') :
    splitOnC '/' (('/' :: marker ++ '/' :: []) ++ seg)
      = [] :: marker :: [seg] := by
  have h2 : splitOnC '/' (marker ++ '/' :: seg) = marker :: splitOnC '/' seg :=
    splitOnC_append_sep '/' marker seg hm
  have h3 : splitOnC '/' seg = [seg] := splitOnC_no_sep '/' seg hseg
  have h1 : splitOnC '/' (([] : Str) ++ '/' :: (marker ++ '/' :: seg))
      = [] :: splitOnC '/' (marker ++ '/' :: seg) :=
    splitOnC_append_sep '/' [] (marker ++ '/' :: seg) (by simp)
  calc splitOnC '/' (('/' :: marker ++ '/' :: []) ++ seg)
      = splitOnC '/' (([] : Str) ++ '/' :: (marker ++ '/' :: seg)) := by
        simp [List.append_assoc]
    _ = [] :: splitOnC '/' (marker ++ '/' :: seg) := h1
    _ = [] :: marker :: splitOnC '/' seg := by rw [h2]
    _ = [] :: marker :: [seg] := by rw [h3]

theorem containsSub_of_leading (sub s : Str) (h : sub.isPrefixOf s = true) :
    containsSub sub s = true := by
  cases s with
  | nil => exact h
  | cons c t =>
    unfold containsSub
    rw [h]
    rfl

theorem extract_embed (id : Str) (h11 : id.length = 11)
    (hall : ∀ c ∈ id, isIdChar c = true) :
    extractVideoId (("https://www.youtube.com/embed/").toList ++ id)
      = some id := by
  have hne := ne_nil_of_len11 id h11
  have htrim := trim_concrete_id ("https://www.youtube.com/embed/").toList []
    id (by decide) (by decide) hall
  rw [List.append_nil] at htrim
  apply extractVideoId_of_urlBranch _ _ htrim
  have hp : parseUrl (("https://www.youtube.com/embed/").toList ++ id)
      = some ⟨("www.youtube.com").toList, ("/embed/").toList ++ id, []⟩ := by
    show parseUrl (("https://").toList ++ (("www.youtube.com").toList
      ++ (("/embed/").toList ++ id)))
      = some ⟨("www.youtube.com").toList, ("/embed/").toList ++ id, []⟩
    rw [parseUrl_https]
    exact parseAfterScheme_eval_noquery ("www.youtube.com").toList
      (("/embed/").toList ++ id) (by decide) (by decide)
      ⟨("embed/").toList ++ id, rfl⟩
      (pathok_with_id ("/embed/").toList id (by decide) hall)
  have hlast : (splitOnC '/' (("/embed/").toList ++ id)).getLastD [] = id := by
    have hs : splitOnC '/' (("/embed/").toList ++ id)
        = [] :: ("embed").toList :: [id] :=
      split_path_seg ("embed").toList id (by decide)
        (fun c hc => (isIdChar_all_ne id hall c hc).2.2.2.1)
    rw [hs]
    rfl
  rw [urlBranch_eval _ _ hp (Or.inl (show containsSub ("youtube.com").toList
    (("www.youtube.com").toList) = true by decide))]
  rw [watchCheck_none_of_no_v ("www.youtube.com").toList
    (("/embed/").toList ++ id) [] (by decide), Option.none_orElse]
  rw [beCheck_none_host ("www.youtube.com").toList (("/embed/").toList ++ id)
    [] (by decide), Option.none_orElse]
  rw [embedCheck_eval_some ("www.youtube.com").toList
    (("/embed/").toList ++ id) [] id (containsSub_of_leading _ _
      (List.isPrefixOf_iff_prefix.2 (List.prefix_append _ _))) hlast h11 hne]
  rfl

theorem extract_embed_t (id : Str) (h11 : id.length = 11)
    (hall : ∀ c ∈ id, isIdChar c = true) :
    extractVideoId (("https://www.youtube.com/embed/").toList ++ id
      ++ ("?t=16s").toList) = some id := by
  have hne := ne_nil_of_len11 id h11
  have htrim := trim_concrete_id ("https://www.youtube.com/embed/").toList
    ("?t=16s").toList id (by decide) (by decide) hall
  apply extractVideoId_of_urlBranch _ _ htrim
  have hb : ("https://www.youtube.com/embed/").toList ++ id ++ ("?t=16s").toList
      = ("https://").toList ++ (("www.youtube.com").toList
        ++ ((("/embed/").toList ++ id) ++ '?' :: ("t=16s").toList)) := by
    rw [List.append_assoc]
    rfl
  rw [hb]
  have hp : parseUrl (("https://").toList ++ (("www.youtube.com").toList
        ++ ((("/embed/").toList ++ id) ++ '?' :: ("t=16s").toList)))
      = some ⟨("www.youtube.com").toList, ("/embed/").toList ++ id,
          ("t=16s").toList⟩ := by
    rw [parseUrl_https]
    exact parseAfterScheme_eval_query ("www.youtube.com").toList
      (("/embed/").toList ++ id) ("t=16s").toList (by decide) (by decide)
      ⟨("embed/").toList ++ id, rfl⟩
      (pathok_with_id ("/embed/").toList id (by decide) hall) (by decide)
  have hlast : (splitOnC '/' (("/embed/").toList ++ id)).getLastD [] = id := by
    have hs : splitOnC '/' (("/embed/").toList ++ id)
        = [] :: ("embed").toList :: [id] :=
      split_path_seg ("embed").toList id (by decide)
        (fun c hc => (isIdChar_all_ne id hall c hc).2.2.2.1)
    rw [hs]
    rfl
  rw [urlBranch_eval _ _ hp (Or.inl (show containsSub ("youtube.com").toList
    (("www.youtube.com").toList) = true by decide))]
  rw [watchCheck_none_of_no_v ("www.youtube.com").toList
    (("/embed/").toList ++ id) ("t=16s").toList (by decide),
    Option.none_orElse]
  rw [beCheck_none_host ("www.youtube.com").toList (("/embed/").toList ++ id)
    ("t=16s").toList (by decide), Option.none_orElse]
  rw [embedCheck_eval_some ("www.youtube.com").toList
    (("/embed/").toList ++ id) ("t=16s").toList id (containsSub_of_leading _ _
      (List.isPrefixOf_iff_prefix.2 (List.prefix_append _ _))) hlast h11 hne]
  rfl

theorem extract_shorts_core (id q : Str) (h11 : id.length = 11)
    (hall : ∀ c ∈ id, isIdChar c = true)
    (hvnone : getParam q ['v'] = none) :
    (watchCheck ⟨("www.youtube.com").toList, ("/shorts/").toList ++ id, q⟩
      <|> beCheck ⟨("www.youtube.com").toList, ("/shorts/").toList ++ id, q⟩
      <|> embedCheck ⟨("www.youtube.com").toList, ("/shorts/").toList ++ id, q⟩
      <|> shortsCheck ⟨("www.youtube.com").toList, ("/shorts/").toList ++ id, q⟩)
      = some id := by
  have hne := ne_nil_of_len11 id h11
  have hlast : (splitOnC '/' (("/shorts/").toList ++ id)).getLastD [] = id := by
    have hs : splitOnC '/' (("/shorts/").toList ++ id)
        = [] :: ("shorts").toList :: [id] :=
      split_path_seg ("shorts").toList id (by decide)
        (fun c hc => (isIdChar_all_ne id hall c hc).2.2.2.1)
    rw [hs]
    rfl
  rw [watchCheck_none_of_no_v ("www.youtube.com").toList
    (("/shorts/").toList ++ id) q hvnone, Option.none_orElse]
  rw [beCheck_none_host ("www.youtube.com").toList (("/shorts/").toList ++ id)
    q (by decide), Option.none_orElse]
  by_cases hc : containsSub ("/embed/").toList (("/shorts/").toList ++ id) = true
  · rw [embedCheck_eval_some ("www.youtube.com").toList
      (("/shorts/").toList ++ id) q id hc hlast h11 hne]
    rfl
  · have hcf : containsSub ("/embed/").toList (("/shorts/").toList ++ id)
        = false := by
      cases hcc : containsSub ("/embed/").toList (("/shorts/").toList ++ id)
      · rfl
      · exact absurd hcc hc
    rw [embedCheck_none_cont ("www.youtube.com").toList
      (("/shorts/").toList ++ id) q hcf, Option.none_orElse]
    rw [shortsCheck_eval_some ("www.youtube.com").toList
      (("/shorts/").toList ++ id) q id (containsSub_of_leading _ _
      (List.isPrefixOf_iff_prefix.2 (List.prefix_append _ _))) hlast h11 hne]

theorem extract_shorts (id : Str) (h11 : id.length = 11)
    (hall : ∀ c ∈ id, isIdChar c = true) :
    extractVideoId (("https://www.youtube.com/shorts/").toList ++ id)
      = some id := by
  have htrim := trim_concrete_id ("https://www.youtube.com/shorts/").toList []
    id (by decide) (by decide) hall
  rw [List.append_nil] at htrim
  apply extractVideoId_of_urlBranch _ _ htrim
  have hp : parseUrl (("https://www.youtube.com/shorts/").toList ++ id)
      = some ⟨("www.youtube.com").toList, ("/shorts/").toList ++ id, []⟩ := by
    show parseUrl (("https://").toList ++ (("www.youtube.com").toList
      ++ (("/shorts/").toList ++ id)))
      = some ⟨("www.youtube.com").toList, ("/shorts/").toList ++ id, []⟩
    rw [parseUrl_https]
    exact parseAfterScheme_eval_noquery ("www.youtube.com").toList
      (("/shorts/").toList ++ id) (by decide) (by decide)
      ⟨("shorts/").toList ++ id, rfl⟩
      (pathok_with_id ("/shorts/").toList id (by decide) hall)
  rw [urlBranch_eval _ _ hp (Or.inl (show containsSub ("youtube.com").toList
    (("www.youtube.com").toList) = true by decide))]
  exact extract_shorts_core id [] h11 hall (by decide)

theorem extract_shorts_t (id : Str) (h11 : id.length = 11)
    (hall : ∀ c ∈ id, isIdChar c = true) :
    extractVideoId (("https://www.youtube.com/shorts/").toList ++ id
      ++ ("?t=16s").toList) = some id := by
  have htrim := trim_concrete_id ("https://www.youtube.com/shorts/").toList
    ("?t=16s").toList id (by decide) (by decide) hall
  apply extractVideoId_of_urlBranch _ _ htrim
  have hb : ("https://www.youtube.com/shorts/").toList ++ id
        ++ ("?t=16s").toList
      = ("https://").toList ++ (("www.youtube.com").toList
        ++ ((("/shorts/").toList ++ id) ++ '?' :: ("t=16s").toList)) := by
    rw [List.append_assoc]
    rfl
  rw [hb]
  have hp : parseUrl (("https://").toList ++ (("www.youtube.com").toList
        ++ ((("/shorts/").toList ++ id) ++ '?' :: ("t=16s").toList)))
      = some ⟨("www.youtube.com").toList, ("/shorts/").toList ++ id,
          ("t=16s").toList⟩ := by
    rw [parseUrl_https]
    exact parseAfterScheme_eval_query ("www.youtube.com").toList
      (("/shorts/").toList ++ id) ("t=16s").toList (by decide) (by decide)
      ⟨("shorts/").toList ++ id, rfl⟩
      (pathok_with_id ("/shorts/").toList id (by decide) hall) (by decide)
  rw [urlBranch_eval _ _ hp (Or.inl (show containsSub ("youtube.com").toList
    (("www.youtube.com").toList) = true by decide))]
  exact extract_shorts_core id ("t=16s").toList h11 hall (by decide)

theorem extract_bare (id : Str) (h11 : id.length = 11)
    (hall : ∀ c ∈ id, isIdChar c = true) :
    extractVideoId id = some id := by
  have htrim : trimChars id = id :=
    trimChars_eq_self id (fun c hc => isIdChar_not_ws c (hall c hc))
  have hparse : parseUrl id = none := by
    unfold parseUrl
    rw [if_neg, if_neg]
    · intro hp
      have : ':' ∈ id :=
        (List.isPrefixOf_iff_prefix.1 hp).subset (by decide)
      exact absurd (hall ':' this) (by decide)
    · intro hp
      have : ':' ∈ id :=
        (List.isPrefixOf_iff_prefix.1 hp).subset (by decide)
      exact absurd (hall ':' this) (by decide)
  apply extractVideoId_of_fallback id id htrim
    (urlBranch_none_of_parse id hparse)
  unfold regexFallback
  rw [vEq_scan_none id (fun c hc => (isIdChar_all_ne id hall c hc).2.1)]
  rw [marker_scan_none ("embed/").toList id '/' (by decide)
    (fun x hx => (isIdChar_all_ne id hall x hx).2.2.2.1)]
  rw [marker_scan_none ("youtu.be/").toList id '/' (by decide)
    (fun x hx => (isIdChar_all_ne id hall x hx).2.2.2.1)]
  rw [marker_scan_none ("shorts/").toList id '/' (by decide)
    (fun x hx => (isIdChar_all_ne id hall x hx).2.2.2.1)]
  rw [Option.none_orElse, Option.none_orElse, Option.none_orElse,
    Option.none_orElse]
  unfold fullIdAt
  rw [if_pos ⟨h11, (List.all_eq_true).2 hall⟩]

/-- C6: for every 11-character identifier over `[0-9A-Za-z_-]`,
`extractVideoId` returns that identifier for the standard watch URL, the
shortened-host URL, the embed URL, the shorts URL and the bare identifier,
also when extraneous timestamp or list query parameters are appended. -/
theorem C6_url_shapes (id : Str) (h11 : id.length = 11)
    (hall : id.all isIdChar = true) :
    extractVideoId (("https://www.youtube.com/watch?v=").toList ++ id)
        = some id
    ∧ extractVideoId (("https://www.youtube.com/watch?v=").toList ++ id
        ++ ("&t=16s").toList) = some id
    ∧ extractVideoId (("https://www.youtube.com/watch?v=").toList ++ id
        ++ ("&list=PL123&t=16s").toList) = some id
    ∧ extractVideoId (("https://youtu.be/").toList ++ id) = some id
    ∧ extractVideoId (("https://youtu.be/").toList ++ id
        ++ ("?t=16s").toList) = some id
    ∧ extractVideoId (("https://www.youtube.com/embed/").toList ++ id)
        = some id
    ∧ extractVideoId (("https://www.youtube.com/embed/").toList ++ id
        ++ ("?t=16s").toList) = some id
    ∧ extractVideoId (("https://www.youtube.com/shorts/").toList ++ id)
        = some id
    ∧ extractVideoId (("https://www.youtube.com/shorts/").toList ++ id
        ++ ("?t=16s").toList) = some id
    ∧ extractVideoId id = some id := by
  have hall' : ∀ c ∈ id, isIdChar c = true := (List.all_eq_true).1 hall
  refine ⟨?_, ?_, ?_, extract_be id h11 hall', extract_be_t id h11 hall',
    extract_embed id h11 hall', extract_embed_t id h11 hall',
    extract_shorts id h11 hall', extract_shorts_t id h11 hall',
    extract_bare id h11 hall'⟩
  · have h := extract_watch id [] h11 hall' (Or.inl rfl) (by simp)
    rw [List.append_nil] at h
    exact h
  · exact extract_watch id ("&t=16s").toList h11 hall'
      (Or.inr ⟨("t=16s").toList, rfl⟩) (by decide)
  · exact extract_watch id ("&list=PL123&t=16s").toList h11 hall'
      (Or.inr ⟨("list=PL123&t=16s").toList, rfl⟩) (by decide)

theorem C6_url_shapes_witness :
    extractVideoId (("https://www.youtube.com/watch?v=").toList
      ++ ("dQw4w9WgXcQ").toList) = some (("dQw4w9WgXcQ").toList) :=
  (C6_url_shapes ("dQw4w9WgXcQ").toList (by decide) (by decide)).1

theorem take11_len (seg : Str) (h12 : 12 ≤ seg.length) :
    (seg.take 11).length = 11 := by
  simp [List.length_take]
  omega

theorem C10_be_shape (seg : Str) (h12 : 12 ≤ seg.length)
    (hall' : ∀ c ∈ seg, isIdChar c = true) :
    urlBranch (("https://youtu.be/").toList ++ seg) = none
    ∧ extractVideoId (("https://youtu.be/").toList ++ seg)
        = some (seg.take 11) := by
  have hnoslash : ∀ c ∈ seg, c ≠ '/' :=
    fun c hc => (isIdChar_all_ne seg hall' c hc).2.2.2.1
  have hs : splitOnC '/' ('/' :: seg) = [] :: [seg] := by
    have h1 := splitOnC_append_sep '/' [] seg (by simp)
    rw [splitOnC_no_sep '/' seg hnoslash] at h1
    exact h1
  have hlastlen : ((splitOnC '/' ('/' :: seg)).getLastD []).length ≠ 11 := by
    rw [hs]
    show seg.length ≠ 11
    omega
  have hpathok : ∀ c ∈ '/' :: seg, (c != '?' && c != '#') = true := by
    intro c hc
    rcases List.mem_cons.1 hc with rfl | hc
    · decide
    · have h := isIdChar_all_ne seg hall' c hc
      rw [Bool.and_eq_true]
      exact ⟨bne_iff_ne.2 h.2.2.2.2, bne_iff_ne.2 h.2.2.1⟩
  have hp : parseUrl (("https://youtu.be/").toList ++ seg)
      = some ⟨("youtu.be").toList, '/' :: seg, []⟩ := by
    show parseUrl (("https://").toList ++ (("youtu.be").toList ++ '/' :: seg))
      = some ⟨("youtu.be").toList, '/' :: seg, []⟩
    rw [parseUrl_https]
    exact parseAfterScheme_eval_noquery ("youtu.be").toList ('/' :: seg)
      (by decide) (by decide) ⟨seg, rfl⟩ hpathok
  have hu : urlBranch (("https://youtu.be/").toList ++ seg) = none := by
    rw [urlBranch_eval _ _ hp (Or.inr (show containsSub ("youtu.be").toList
      (("youtu.be").toList) = true by decide))]
    rw [watchCheck_none_of_no_v ("youtu.be").toList ('/' :: seg) []
      (by decide), Option.none_orElse]
    rw [beCheck_none_len [] seg (by omega), Option.none_orElse]
    rw [embedCheck_none_lastlen ("youtu.be").toList ('/' :: seg) [] hlastlen,
      Option.none_orElse]
    exact shortsCheck_none_lastlen ("youtu.be").toList ('/' :: seg) [] hlastlen
  refine ⟨hu, ?_⟩
  have htrim := trim_concrete_id ("https://youtu.be/").toList [] seg
    (by decide) (by decide) hall'
  rw [List.append_nil] at htrim
  apply extractVideoId_of_fallback _ _ htrim hu
  unfold regexFallback
  have hA : ∀ c ∈ ("https://youtu.be/").toList, c ≠ '=' := by decide
  rw [vEq_scan_none _ (fun c hc => (List.mem_append.1 hc).elim (hA c)
    (fun h => (isIdChar_all_ne seg hall' c h).2.1))]
  have hLbe : (("https://youtu.be/").toList).length = 17 := rfl
  have hembed : scan1 (markerAt ("embed/").toList)
      (("https://youtu.be/").toList ++ seg) = none := by
    rw [scan1_append _ _ _ (by
      intro i hi
      rw [hLbe] at hi
      interval_cases i <;> rfl)]
    exact marker_scan_none _ seg '/' (by decide) hnoslash
  rw [hembed]
  have hyt : scan1 (markerAt ("youtu.be/").toList)
      (("https://youtu.be/").toList ++ seg) = some (seg.take 11) := by
    show scan1 (markerAt ("youtu.be/").toList)
      (("https://").toList ++ (("youtu.be/").toList ++ seg)) = some (seg.take 11)
    rw [scan1_append _ _ _ (by
      intro i hi
      rw [show (("https://").toList).length = 8 from rfl] at hi
      interval_cases i <;> rfl)]
    exact scan1_head_some _ _ _ (markerAt_hit ("youtu.be/").toList seg
      (by omega) hall')
  rw [hyt]
  rfl

theorem C10_embed_shape (seg : Str) (h12 : 12 ≤ seg.length)
    (hall' : ∀ c ∈ seg, isIdChar c = true) :
    urlBranch (("https://www.youtube.com/embed/").toList ++ seg) = none
    ∧ extractVideoId (("https://www.youtube.com/embed/").toList ++ seg)
        = some (seg.take 11) := by
  have hnoslash : ∀ c ∈ seg, c ≠ '/' :=
    fun c hc => (isIdChar_all_ne seg hall' c hc).2.2.2.1
  have hsplit : splitOnC '/' (("/embed/").toList ++ seg)
      = [] :: ("embed").toList :: [seg] :=
    split_path_seg ("embed").toList seg (by decide) hnoslash
  have hlastlen : ((splitOnC '/' (("/embed/").toList ++ seg)).getLastD
      []).length ≠ 11 := by
    rw [hsplit]
    show seg.length ≠ 11
    omega
  have hp : parseUrl (("https://www.youtube.com/embed/").toList ++ seg)
      = some ⟨("www.youtube.com").toList, ("/embed/").toList ++ seg, []⟩ := by
    show parseUrl (("https://").toList ++ (("www.youtube.com").toList
      ++ (("/embed/").toList ++ seg)))
      = some ⟨("www.youtube.com").toList, ("/embed/").toList ++ seg, []⟩
    rw [parseUrl_https]
    exact parseAfterScheme_eval_noquery ("www.youtube.com").toList
      (("/embed/").toList ++ seg) (by decide) (by decide)
      ⟨("embed/").toList ++ seg, rfl⟩
      (pathok_with_id ("/embed/").toList seg (by decide) hall')
  have hu : urlBranch (("https://www.youtube.com/embed/").toList ++ seg)
      = none := by
    rw [urlBranch_eval _ _ hp (Or.inl (show containsSub ("youtube.com").toList
      (("www.youtube.com").toList) = true by decide))]
    rw [watchCheck_none_of_no_v ("www.youtube.com").toList
      (("/embed/").toList ++ seg) [] (by decide), Option.none_orElse]
    rw [beCheck_none_host ("www.youtube.com").toList
      (("/embed/").toList ++ seg) [] (by decide), Option.none_orElse]
    rw [embedCheck_none_lastlen ("www.youtube.com").toList
      (("/embed/").toList ++ seg) [] hlastlen, Option.none_orElse]
    exact shortsCheck_none_lastlen ("www.youtube.com").toList
      (("/embed/").toList ++ seg) [] hlastlen
  refine ⟨hu, ?_⟩
  have htrim := trim_concrete_id ("https://www.youtube.com/embed/").toList []
    seg (by decide) (by decide) hall'
  rw [List.append_nil] at htrim
  apply extractVideoId_of_fallback _ _ htrim hu
  unfold regexFallback
  have hA : ∀ c ∈ ("https://www.youtube.com/embed/").toList, c ≠ '=' := by
    decide
  rw [vEq_scan_none _ (fun c hc => (List.mem_append.1 hc).elim (hA c)
    (fun h => (isIdChar_all_ne seg hall' c h).2.1))]
  have hembed : scan1 (markerAt ("embed/").toList)
      (("https://www.youtube.com/embed/").toList ++ seg)
      = some (seg.take 11) := by
    show scan1 (markerAt ("embed/").toList)
      (("https://www.youtube.com/").toList ++ (("embed/").toList ++ seg))
      = some (seg.take 11)
    rw [scan1_append _ _ _ (by
      intro i hi
      rw [show (("https://www.youtube.com/").toList).length = 24 from rfl] at hi
      interval_cases i <;> rfl)]
    exact scan1_head_some _ _ _ (markerAt_hit ("embed/").toList seg
      (by omega) hall')
  rw [hembed]
  rfl

theorem C10_shorts_shape (seg : Str) (h12 : 12 ≤ seg.length)
    (hall' : ∀ c ∈ seg, isIdChar c = true) :
    urlBranch (("https://www.youtube.com/shorts/").toList ++ seg) = none
    ∧ extractVideoId (("https://www.youtube.com/shorts/").toList ++ seg)
        = some (seg.take 11) := by
  have hnoslash : ∀ c ∈ seg, c ≠ '/' :=
    fun c hc => (isIdChar_all_ne seg hall' c hc).2.2.2.1
  have hsplit : splitOnC '/' (("/shorts/").toList ++ seg)
      = [] :: ("shorts").toList :: [seg] :=
    split_path_seg ("shorts").toList seg (by decide) hnoslash
  have hlastlen : ((splitOnC '/' (("/shorts/").toList ++ seg)).getLastD
      []).length ≠ 11 := by
    rw [hsplit]
    show seg.length ≠ 11
    omega
  have hp : parseUrl (("https://www.youtube.com/shorts/").toList ++ seg)
      = some ⟨("www.youtube.com").toList, ("/shorts/").toList ++ seg, []⟩ := by
    show parseUrl (("https://").toList ++ (("www.youtube.com").toList
      ++ (("/shorts/").toList ++ seg)))
      = some ⟨("www.youtube.com").toList, ("/shorts/").toList ++ seg, []⟩
    rw [parseUrl_https]
    exact parseAfterScheme_eval_noquery ("www.youtube.com").toList
      (("/shorts/").toList ++ seg) (by decide) (by decide)
      ⟨("shorts/").toList ++ seg, rfl⟩
      (pathok_with_id ("/shorts/").toList seg (by decide) hall')
  have hu : urlBranch (("https://www.youtube.com/shorts/").toList ++ seg)
      = none := by
    rw [urlBranch_eval _ _ hp (Or.inl (show containsSub ("youtube.com").toList
      (("www.youtube.com").toList) = true by decide))]
    rw [watchCheck_none_of_no_v ("www.youtube.com").toList
      (("/shorts/").toList ++ seg) [] (by decide), Option.none_orElse]
    rw [beCheck_none_host ("www.youtube.com").toList
      (("/shorts/").toList ++ seg) [] (by decide), Option.none_orElse]
    rw [embedCheck_none_lastlen ("www.youtube.com").toList
      (("/shorts/").toList ++ seg) [] hlastlen, Option.none_orElse]
    exact shortsCheck_none_lastlen ("www.youtube.com").toList
      (("/shorts/").toList ++ seg) [] hlastlen
  refine ⟨hu, ?_⟩
  have htrim := trim_concrete_id ("https://www.youtube.com/shorts/").toList []
    seg (by decide) (by decide) hall'
  rw [List.append_nil] at htrim
  apply extractVideoId_of_fallback _ _ htrim hu
  unfold regexFallback
  have hA : ∀ c ∈ ("https://www.youtube.com/shorts/").toList, c ≠ '=' := by
    decide
  rw [vEq_scan_none _ (fun c hc => (List.mem_append.1 hc).elim (hA c)
    (fun h => (isIdChar_all_ne seg hall' c h).2.1))]
  have hembed : scan1 (markerAt ("embed/").toList)
      (("https://www.youtube.com/shorts/").toList ++ seg) = none := by
    rw [scan1_append _ _ _ (by
      intro i hi
      rw [show (("https://www.youtube.com/shorts/").toList).length = 31
        from rfl] at hi
      interval_cases i <;> rfl)]
    exact marker_scan_none _ seg '/' (by decide) hnoslash
  rw [hembed]
  have hyt : scan1 (markerAt ("youtu.be/").toList)
      (("https://www.youtube.com/shorts/").toList ++ seg) = none := by
    rw [scan1_append _ _ _ (by
      intro i hi
      rw [show (("https://www.youtube.com/shorts/").toList).length = 31
        from rfl] at hi
      interval_cases i <;> rfl)]
    exact marker_scan_none _ seg '/' (by decide) hnoslash
  rw [hyt]
  have hsh : scan1 (markerAt ("shorts/").toList)
      (("https://www.youtube.com/shorts/").toList ++ seg)
      = some (seg.take 11) := by
    show scan1 (markerAt ("shorts/").toList)
      (("https://www.youtube.com/").toList ++ (("shorts/").toList ++ seg))
      = some (seg.take 11)
    rw [scan1_append _ _ _ (by
      intro i hi
      rw [show (("https://www.youtube.com/").toList).length = 24 from rfl] at hi
      interval_cases i <;> rfl)]
    exact scan1_head_some _ _ _ (markerAt_hit ("shorts/").toList seg
      (by omega) hall')
  rw [hsh]
  rfl

/-- C10: a shortened-host, embed or shorts URL whose identifier segment
has more than 11 characters from `[0-9A-Za-z_-]` is rejected by the
structured URL branch (the length check fails) but accepted by the regex
fallback, which returns exactly the first 11 characters of the segment. -/
theorem C10_overlong_segment (seg : Str) (h12 : 12 ≤ seg.length)
    (hall : seg.all isIdChar = true) :
    (urlBranch (("https://youtu.be/").toList ++ seg) = none
      ∧ extractVideoId (("https://youtu.be/").toList ++ seg)
          = some (seg.take 11))
    ∧ (urlBranch (("https://www.youtube.com/embed/").toList ++ seg) = none
      ∧ extractVideoId (("https://www.youtube.com/embed/").toList ++ seg)
          = some (seg.take 11))
    ∧ (urlBranch (("https://www.youtube.com/shorts/").toList ++ seg) = none
      ∧ extractVideoId (("https://www.youtube.com/shorts/").toList ++ seg)
          = some (seg.take 11)) := by
  have hall' : ∀ c ∈ seg, isIdChar c = true := (List.all_eq_true).1 hall
  exact ⟨C10_be_shape seg h12 hall', C10_embed_shape seg h12 hall',
    C10_shorts_shape seg h12 hall'⟩

theorem C10_overlong_segment_witness :
    extractVideoId (("https://youtu.be/").toList ++ ("aaaaaaaaaaaa").toList)
      = some (("aaaaaaaaaaa").toList) :=
  (C10_overlong_segment ("aaaaaaaaaaaa").toList (by decide) (by decide)).1.2

/-! ## Output cleaning (src/app/api/summarize/route.ts, `cleanModelOutput`,
lines 97-131)

Regex semantics are modelled at Unicode-scalar granularity (the source
regexes without the `u` flag operate on UTF-16 units; for the emoji used
here the two coincide on well-formed text).  `/i` lowers ASCII letters
only, as JS does for these patterns. -/

def apos : Char := Char.ofNat 39

/-- ASCII lowercasing, the effect of the `/i` flag on these patterns. -/
def lowerA (c : Char) : Char := c.toLower

/-- Case-insensitive prefix test. -/
def isPrefixOfI : Str → Str → Bool
  | [], _ => true
  | _ :: _, [] => false
  | a :: as, b :: bs => (lowerA a == lowerA b) && isPrefixOfI as bs

/-- The marker alternatives of the format-detection regex on line 99:
`🎯|🎙️|📝|🔑|📋|💡|🔄|🎧|🔍|📊|📈|🌐` (the microphone variant carries a
variation selector). -/
def markerSeqs : List Str :=
  [['🎯'], ['🎙', '️'], ['📝'], ['🔑'], ['📋'], ['💡'], ['🔄'], ['🎧'],
    ['🔍'], ['📊'], ['📈'], ['🌐']]

/-- `text.match(/🎯|🎙️|📝|🔑|📋|💡|🔄|🎧|🔍|📊|📈|🌐/)` is truthy. -/
def hasMarker (t : Str) : Bool := markerSeqs.any (fun m => containsSub m t)

/-- One anchored `replace(/^(alt1|alt2|...)REST\s*/i, '')`: try the
alternation's expansions in backtracking order; the first one that both
matches the prefix and lets the rest of the pattern complete wins; the
matched region plus trailing whitespace is removed. -/
def stripAnchored (alts : List Str) (complete : Str → Option Nat)
    (t : Str) : Str :=
  match alts.findSome? (fun a =>
      if isPrefixOfI a t then
        (complete (t.drop a.length)).map (fun n => a.length + n)
      else none) with
  | some n => (t.drop n).dropWhile isWs
  | none => t

/-- `[^]*?X` for a character class `X`: index just past the first
occurrence of a class character (lazy any, newlines included). -/
def findIdxAny (cs : List Char) : Str → Option Nat
  | [] => none
  | c :: rest =>
    if cs.contains c then some 0 else (findIdxAny cs rest).map (· + 1)

/-- `.*?X`: like `findIdxAny` but a newline aborts the attempt (the dot
does not match line terminators). -/
def findIdxAnyNoNl (cs : List Char) : Str → Option Nat
  | [] => none
  | c :: rest =>
    if cs.contains c then some 0
    else if c = '\n' then none
    else (findIdxAnyNoNl cs rest).map (· + 1)

/-- `[^]*?(kw1|kw2|...).*?X`: scan for the first keyword occurrence from
which a class character is reachable without crossing a newline;
on failure at one position the engine moves one character right. -/
def kwColon (kws : List Str) (cs : List Char) : Str → Option Nat
  | [] => none
  | c :: rest =>
    match kws.find? (fun k => isPrefixOfI k (c :: rest)) with
    | some k =>
      match findIdxAnyNoNl cs ((c :: rest).drop k.length) with
      | some j => some (k.length + j + 1)
      | none => (kwColon kws cs rest).map (· + 1)
    | none => (kwColon kws cs rest).map (· + 1)

def after (r : Option Nat) : Option Nat := r.map (· + 1)

/-- Expansions of `Here'?s?( is)?` in backtracking order. -/
def hereAlts : List Str :=
  [("Here").toList ++ apos :: ("s is").toList,
   ("Here").toList ++ [apos, 's'],
   ("Here").toList ++ apos :: (" is").toList,
   ("Here").toList ++ [apos],
   ("Heres is").toList, ("Heres").toList, ("Here is").toList,
   ("Here").toList]

/-- Expansions of `I'?ll?` in backtracking order. -/
def illAlts : List Str :=
  [('I' :: apos :: ("ll").toList), ('I' :: apos :: ("l").toList),
   ("Ill").toList, ("Il").toList]

def alts1 : List Str :=
  ("Okay").toList :: hereAlts ++
    [("Let me").toList, ("I will").toList, 'I' :: apos :: ("ll").toList,
      ("I can").toList, ("I would").toList, ("I am going to").toList,
      ("Allow me to").toList, ("Sure").toList, ("Of course").toList,
      ("Certainly").toList, ("Alright").toList]

def f1 : Str → Str :=
  stripAnchored alts1 (fun rest => after (findIdxAny [','] rest))

def alts2 : List Str :=
  hereAlts ++ illAlts ++
    [("Let me").toList, ("I will").toList, ("I can").toList,
      ("I would").toList, ("I am going to").toList,
      ("Allow me to").toList, ("Sure").toList, ("Of course").toList,
      ("Certainly").toList]

def kws2 : List Str :=
  [("summary").toList, ("translate").toList, ("breakdown").toList,
    ("analysis").toList]

def f2 : Str → Str := stripAnchored alts2 (kwColon kws2 [':'])

def f3 : Str → Str :=
  stripAnchored [("Based on").toList, ("According to").toList]
    (fun rest => after (findIdxAnyNoNl [','] rest))

def f4 : Str → Str :=
  stripAnchored [("I understand").toList]
    (fun rest => after (findIdxAnyNoNl ['.', '!'] rest))

def f5 : Str → Str :=
  stripAnchored [("Now").toList, ("First").toList,
      ("Let").toList ++ [apos, 's']]
    (fun rest => some (if rest.head? = some ',' then 1 else 0))

def f6 : Str → Str :=
  stripAnchored [("Here are").toList, ("The following is").toList,
      ("This is").toList, ("Below is").toList]
    (fun rest => after (findIdxAnyNoNl [':'] rest))

def f7 : Str → Str :=
  stripAnchored ['I' :: apos :: ("ll provide").toList,
      ("Let me break").toList, 'I' :: apos :: ("ll break").toList,
      'I' :: apos :: ("ll help").toList,
      'I' :: apos :: ("ve structured").toList]
    (fun rest => after (findIdxAnyNoNl [':'] rest))

def f8 : Str → Str :=
  stripAnchored [("As requested").toList, ("Following your").toList,
      ("In response to").toList]
    (fun rest => after (findIdxAnyNoNl [':'] rest))

def f9 : Str → Str :=
  stripAnchored [("好的").toList, ("这是").toList, ("让我").toList,
      ("我将").toList, ("我会").toList, ("我能").toList, ("我想").toList,
      ("请允许我").toList, ("当然").toList, ("确实").toList, ("好的").toList]
    (fun rest => after (findIdxAny [','] rest))

def f10 : Str → Str :=
  stripAnchored [("这是").toList, ("我将").toList, ("让我").toList,
      ("我能").toList, ("我想").toList]
    (kwColon [("摘要").toList, ("翻译").toList, ("分析").toList] [':', '：'])

def f11 : Str → Str :=
  stripAnchored [("基于").toList, ("根据").toList, ("按照").toList]
    (fun rest => after (findIdxAnyNoNl [',', '，'] rest))

def f12 : Str → Str :=
  stripAnchored [("我理解").toList]
    (fun rest => after (findIdxAnyNoNl ['.', '!', '。', '！'] rest))

def f13 : Str → Str :=
  stripAnchored [("现在").toList, ("首先").toList, ("让我们").toList]
    (fun rest =>
      some (if rest.head? = some ',' ∨ rest.head? = some '，' then 1 else 0))

def f14 : Str → Str :=
  stripAnchored [("以下是").toList, ("这是").toList, ("下面是").toList]
    (fun rest => after (findIdxAnyNoNl [':', '：'] rest))

def f15 : Str → Str :=
  stripAnchored [("我将提供").toList, ("让我分析").toList,
      ("我将分析").toList, ("我会帮助").toList, ("我已经整理").toList]
    (fun rest => after (findIdxAny [':', '：'] rest))

def f16 : Str → Str :=
  stripAnchored [("根据您的要求").toList, ("按照您的").toList,
      ("作为对").toList]
    (fun rest => after (findIdxAny [':', '：'] rest))

/-- The character class `[^:\n🎯🎙️📋#*\-•]`. -/
def gm1Excluded (c : Char) : Bool :=
  c = ':' ∨ c = '\n' ∨ c = '🎯' ∨ c = '🎙' ∨ c = '️' ∨ c = '📋'
    ∨ c = '#' ∨ c = '*' ∨ c = '-' ∨ c = '•'

def colonAt (s : Str) (k : Nat) : Bool :=
  match s.drop k with
  | c :: _ => c = ':' ∨ c = '：'
  | [] => false

/-- Greedy `[^...]+` backtracking: the largest `k ≥ 1` not exceeding the
maximal class run such that the character at `k` is `:` or `：`. -/
def backtrackColon (s : Str) : Nat → Option Nat
  | 0 => none
  | k + 1 => if colonAt s (k + 1) then some (k + 1) else backtrackColon s k

/-- One attempt of `/^[^:\n🎯🎙️📋#*\-•]+[:：]\s*/` at a line start. -/
def gm1MatchLen (s : Str) : Option Nat :=
  match backtrackColon s ((s.takeWhile fun c => !(gm1Excluded c)).length) with
  | some k => some (k + 1 + ((s.drop (k + 1)).takeWhile isWs).length)
  | none => none

/-- One attempt of `/^(?![#*\-•🎯️])[\s\d]+[.。]\s*/` at a line start. -/
def gm2MatchLen (s : Str) : Option Nat :=
  match s with
  | [] => none
  | c :: _ =>
    if c = '#' ∨ c = '*' ∨ c = '-' ∨ c = '•' ∨ c = '🎯' ∨ c = '️' then
      none
    else
      let a := (s.takeWhile fun x => x.isWhitespace ∨ x.isDigit).length
      if a = 0 then none
      else
        match s.drop a with
        | d :: _ =>
          if d = '.' ∨ d = '。' then
            some (a + 1 + ((s.drop (a + 1)).takeWhile isWs).length)
          else none
        | [] => none

/-- A global multiline anchored replace: attempt the pattern at every
line start of the original string, delete each match, and resume the scan
just past it. -/
def gmStrip (matchLen : Str → Option Nat) : Bool → Str → Str
  | _, [] => []
  | atLS, c :: rest =>
    if atLS then
      match matchLen (c :: rest) with
      | some (n + 1) =>
        gmStrip matchLen
          (((c :: rest).take (n + 1)).getLast? == some '\n') (rest.drop n)
      | _ => c :: gmStrip matchLen (c == '\n') rest
    else c :: gmStrip matchLen (c == '\n') rest
termination_by _ s => s.length
decreasing_by
  all_goals simp [List.length_drop]
  all_goals omega

/-- The lead-in alternatives of the light-touch branch (line 103). -/
def leadIns : List Str :=
  [("Here is the summary:").toList, ("Summary:").toList,
    ("以下是摘要：").toList, ("摘要：").toList]

/-- `replace(/^(Here is the summary:|Summary:|以下是摘要：|摘要：)\s*/i, '')`. -/
def stripLeadIn : Str → Str :=
  stripAnchored leadIns (fun _ => some 0)

/-- The cleaning pipeline from the third strip on (applied after `f1` and
`f2` in the aggressive branch). -/
def tail14 (t : Str) : Str :=
  trimChars (gmStrip gm2MatchLen true (gmStrip gm1MatchLen true
    (f16 (f15 (f14 (f13 (f12 (f11 (f10 (f9 (f8 (f7 (f6 (f5 (f4 (f3 t))))))))))))))))

/-- `cleanModelOutput(text)`: minimal trimming when a structural marker is
present, the full strip pipeline otherwise. -/
def cleanModelOutput (t : Str) : Str :=
  if hasMarker t then trimChars (stripLeadIn t)
  else tail14 (f2 (f1 t))

/-- Right trim only (`trimEnd`). -/
def trimRightW (s : Str) : Str := (s.reverse.dropWhile isWs).reverse

/-! ### Lemmas about the cleaning pipeline -/

theorem dropWhile_as_drop (p : Char → Bool) :
    ∀ l : Str, l.dropWhile p = l.drop (l.takeWhile p).length
  | [] => rfl
  | c :: l => by
    by_cases h : p c = true
    · simp [List.dropWhile_cons, List.takeWhile_cons, h,
        dropWhile_as_drop p l]
    · simp [List.dropWhile_cons, List.takeWhile_cons, h]

theorem take_as_takeWhile (p : Char → Bool) :
    ∀ l : Str, l.take (l.takeWhile p).length = l.takeWhile p
  | [] => rfl
  | c :: l => by
    by_cases h : p c = true
    · simp [List.takeWhile_cons, h, take_as_takeWhile p l]
    · simp [List.takeWhile_cons, h]

/-- Every anchored strip either leaves its input unchanged or removes a
prefix. -/
theorem stripAnchored_shape (alts : List Str) (complete : Str → Option Nat)
    (t : Str) : ∃ j, stripAnchored alts complete t = t.drop j := by
  unfold stripAnchored
  split
  · rename_i n _
    refine ⟨((t.drop n).takeWhile isWs).length + n, ?_⟩
    rw [dropWhile_as_drop, List.drop_drop, Nat.add_comm]
  · exact ⟨0, rfl⟩

theorem stripAnchored_eval_none (alts : List Str)
    (complete : Str → Option Nat) (t : Str)
    (h : ∀ a ∈ alts, isPrefixOfI a t = false
      ∨ complete (t.drop a.length) = none) :
    stripAnchored alts complete t = t := by
  unfold stripAnchored
  split
  · rename_i n hn
    obtain ⟨a, ha, hfa⟩ := List.exists_of_findSome?_eq_some hn
    rcases h a ha with h1 | h1 <;> simp [h1] at hfa
  · rfl

theorem stripAnchored_eval_split :
    ∀ (pre : List Str) (a : Str) (post : List Str)
      (complete : Str → Option Nat) (t : Str) (n : Nat),
      (∀ b ∈ pre, isPrefixOfI b t = false) → isPrefixOfI a t = true →
      complete (t.drop a.length) = some n →
      stripAnchored (pre ++ a :: post) complete t
        = (t.drop (a.length + n)).dropWhile isWs
  | [], a, post, complete, t, n, _, ha, hc => by
    unfold stripAnchored
    rw [List.nil_append, List.findSome?_cons]
    simp [ha, hc]
  | b :: pre, a, post, complete, t, n, hpre, ha, hc => by
    have ih := stripAnchored_eval_split pre a post complete t n
      (fun x hx => hpre x (List.mem_cons_of_mem b hx)) ha hc
    have hb := hpre b (List.mem_cons_self b pre)
    unfold stripAnchored at ih ⊢
    rw [List.cons_append, List.findSome?_cons]
    simp only [hb, Bool.false_eq_true, if_false]
    exact ih

/-- A case-insensitive prefix test against a concatenation is decided by
the first block alone when the pattern is short enough. -/
theorem isPrefixOfI_append_of_le :
    ∀ (b xs : Str), b.length ≤ xs.length → ∀ ys,
      isPrefixOfI b (xs ++ ys) = isPrefixOfI b xs
  | [], _, _, _ => rfl
  | c :: b, [], h, ys => by simp at h
  | c :: b, x :: xs, h, ys => by
    simp only [List.cons_append, isPrefixOfI, List.append_eq]
    rw [isPrefixOfI_append_of_le b xs (by simpa using h) ys]

theorem findIdxAny_append_none :
    ∀ (cs : List Char) (xs ys : Str), findIdxAny cs xs = none →
      findIdxAny cs (xs ++ ys) = (findIdxAny cs ys).map (· + xs.length)
  | cs, [], ys, _ => by
    cases h : findIdxAny cs ys <;> simp [h]
  | cs, x :: xs, ys, h => by
    simp only [findIdxAny, List.cons_append, List.append_eq] at h ⊢
    by_cases hx : cs.contains x = true
    · rw [if_pos hx] at h
      exact absurd h (by simp)
    · rw [if_neg hx] at h ⊢
      rw [findIdxAny_append_none cs xs ys (Option.map_eq_none'.1 h)]
      cases hy : findIdxAny cs ys
      · simp
      · simp only [Option.map_some', Option.some_inj, List.length_cons]
        omega

theorem isPrefixOfI_take_mem :
    ∀ (a t : Str), isPrefixOfI a t = true →
      ∀ c ∈ t.take a.length, lowerA c ∈ a.map lowerA
  | [], t, _ => by simp
  | x :: a, [], h => by simp [isPrefixOfI] at h
  | x :: a, y :: t, h => by
    rw [isPrefixOfI, Bool.and_eq_true, beq_iff_eq] at h
    intro c hc
    rw [List.length_cons, List.take_succ_cons, List.mem_cons] at hc
    rcases hc with rfl | hc
    · rw [List.map_cons, h.1]
      exact List.mem_cons_self _ _
    · exact List.mem_cons_of_mem _ (isPrefixOfI_take_mem a t h.2 c hc)

/-- The light-touch lead-in strip removes a (possibly empty) prefix all of
whose characters are lead-in boilerplate characters or whitespace. -/
theorem stripLeadIn_spec (t : Str) :
    ∃ k, stripLeadIn t = t.drop k ∧
      ∀ c ∈ t.take k,
        lowerA c ∈ leadIns.flatten.map lowerA ∨ isWs c = true := by
  unfold stripLeadIn stripAnchored
  split
  · rename_i n hn
    obtain ⟨a, ha, hfa⟩ := List.exists_of_findSome?_eq_some hn
    split at hfa
    · rename_i hpre
      rw [Option.map_some', Option.some_inj] at hfa
      refine ⟨a.length + ((t.drop a.length).takeWhile isWs).length, ?_, ?_⟩
      · rw [dropWhile_as_drop, List.drop_drop, ← hfa, Nat.add_zero,
          Nat.add_comm]
      · intro c hc
        rw [List.take_add] at hc
        rcases List.mem_append.1 hc with h1 | h2
        · obtain ⟨x, hx, hxe⟩ :=
            List.mem_map.1 (isPrefixOfI_take_mem a t hpre c h1)
          exact Or.inl (List.mem_map.2
            ⟨x, List.mem_flatten.2 ⟨a, ha, hx⟩, hxe⟩)
        · rw [take_as_takeWhile] at h2
          exact Or.inr (List.mem_takeWhile_imp h2)
    · exact absurd hfa (by simp)
  · exact ⟨0, rfl, by simp⟩

/-- No marker sequence is empty, starts with whitespace, or starts with a
character that the lead-in strip could consume. -/
theorem marker_heads :
    ∀ m ∈ markerSeqs, m ≠ [] ∧ isWs (m.headD 'a') = false ∧
      ¬ lowerA (m.headD 'a') ∈ leadIns.flatten.map lowerA := by decide

theorem suffix_dropWhile (s' : Str) :
    ∀ p : Str, (∀ c, s'.head? = some c → isWs c = false) →
      s' <:+ (p ++ s').dropWhile isWs
  | [], hh => by
    rw [List.nil_append]
    cases s' with
    | nil => simp
    | cons c cs =>
      rw [List.dropWhile_cons, hh c rfl]
      simp
  | a :: p, hh => by
    rw [List.cons_append, List.dropWhile_cons]
    by_cases hws : isWs a = true
    · simp only [hws, if_true]
      exact suffix_dropWhile s' p hh
    · simp only [hws, if_false]
      exact (List.suffix_append p s').trans (List.suffix_cons a _)

theorem trimRightW_suffix (y x : Str) (h : y <:+ x) :
    trimRightW y <:+ trimRightW x := by
  obtain ⟨p, rfl⟩ := h
  unfold trimRightW
  rw [List.reverse_append, List.dropWhile_append]
  split
  · rename_i he
    have hy : y.reverse.dropWhile isWs = [] := by simpa using he
    rw [hy]
    simp
  · rw [List.reverse_append, List.reverse_reverse]
    exact List.suffix_append _ _

/-- Marker mode: every marker-headed suffix of the input survives the
cleaning, up to trailing whitespace. -/
theorem modeA_marker_suffix (t s' : Str) (hm : hasMarker t = true)
    (hs : s' <:+ t) (hmk : ∃ m ∈ markerSeqs, m <+: s') :
    trimRightW s' <:+ cleanModelOutput t := by
  obtain ⟨m, hmem, rest, rfl⟩ := hmk
  obtain ⟨hne, hwsh, hlh⟩ := marker_heads m hmem
  cases m with
  | nil => exact absurd rfl hne
  | cons c cs =>
    rw [List.headD_cons] at hwsh hlh
    obtain ⟨k, hk, hchars⟩ := stripLeadIn_spec t
    obtain ⟨pre, rfl⟩ := hs
    have hkle : k ≤ pre.length := by
      by_contra hgt
      rw [Nat.not_le] at hgt
      have hcmem : c ∈ (pre ++ (c :: cs ++ rest)).take k := by
        rw [List.take_append_eq_append_take]
        apply List.mem_append_right
        rw [List.cons_append,
          show k - pre.length = (k - pre.length - 1) + 1 by omega,
          List.take_succ_cons]
        exact List.mem_cons_self _ _
      rcases hchars c hcmem with hl | hw
      · exact hlh hl
      · rw [hwsh] at hw
        exact Bool.false_ne_true hw
    have hsfx : (c :: cs ++ rest) <:+ (pre ++ (c :: cs ++ rest)).drop k := by
      rw [List.drop_append_eq_append_drop, Nat.sub_eq_zero_of_le hkle,
        List.drop_zero]
      exact List.suffix_append _ _
    have hcm : cleanModelOutput (pre ++ (c :: cs ++ rest))
        = trimRightW (((pre ++ (c :: cs ++ rest)).drop k).dropWhile isWs) := by
      unfold cleanModelOutput
      rw [if_pos hm, hk]
      rfl
    rw [hcm]
    obtain ⟨q, hq⟩ := hsfx
    refine trimRightW_suffix _ _ ?_
    rw [← hq]
    refine suffix_dropWhile (c :: cs ++ rest) q ?_
    intro c' hc'
    rw [List.cons_append, List.head?_cons, Option.some_inj] at hc'
    rw [← hc']
    exact hwsh

/-- Aggressive mode: when the text opens with the preamble phrase, the
first two strips already remove at least those 20 characters. -/
theorem modeB_strip (r : Str) :
    ∃ k, 20 ≤ k ∧
      f2 (f1 (("Here is the summary:").toList ++ r))
        = (("Here is the summary:").toList ++ r).drop k := by
  have hlen7 : (("Here is").toList).length = 7 := rfl
  cases hr : findIdxAny [','] r with
  | some j =>
    have hc : (fun rest => after (findIdxAny [','] rest))
        ((("Here is the summary:").toList ++ r).drop
          (("Here is").toList).length) = some (14 + j) := by
      show after (findIdxAny [','] ((" the summary:").toList ++ r))
        = some (14 + j)
      rw [findIdxAny_append_none [','] ((" the summary:").toList) r rfl, hr]
      show some (j + (" the summary:").toList.length + 1) = some (14 + j)
      rw [Option.some_inj, show (" the summary:").toList.length = 13 from rfl]
      omega
    have hclosed : ∀ b ∈ [("Okay").toList,
        ("Here").toList ++ apos :: ("s is").toList,
        ("Here").toList ++ [apos, 's'],
        ("Here").toList ++ apos :: (" is").toList,
        ("Here").toList ++ [apos], ("Heres is").toList, ("Heres").toList],
        isPrefixOfI b (("Here is the summary:").toList) = false
          ∧ b.length ≤ 20 := by decide
    have hpre : ∀ b ∈ [("Okay").toList,
        ("Here").toList ++ apos :: ("s is").toList,
        ("Here").toList ++ [apos, 's'],
        ("Here").toList ++ apos :: (" is").toList,
        ("Here").toList ++ [apos], ("Heres is").toList, ("Heres").toList],
        isPrefixOfI b (("Here is the summary:").toList ++ r) = false := by
      intro b hb
      rw [isPrefixOfI_append_of_le b (("Here is the summary:").toList)
        (hclosed b hb).2 r]
      exact (hclosed b hb).1
    have ha : isPrefixOfI (("Here is").toList)
        (("Here is the summary:").toList ++ r) = true := by
      rw [isPrefixOfI_append_of_le (("Here is").toList)
        (("Here is the summary:").toList) (by decide) r]
      decide
    have h1 : f1 (("Here is the summary:").toList ++ r)
        = ((("Here is the summary:").toList ++ r).drop
            ((("Here is").toList).length + (14 + j))).dropWhile isWs :=
      stripAnchored_eval_split
        [("Okay").toList, ("Here").toList ++ apos :: ("s is").toList,
          ("Here").toList ++ [apos, 's'],
          ("Here").toList ++ apos :: (" is").toList,
          ("Here").toList ++ [apos], ("Heres is").toList,
          ("Heres").toList]
        (("Here is").toList)
        [("Here").toList, ("Let me").toList, ("I will").toList,
          'I' :: apos :: ("ll").toList, ("I can").toList,
          ("I would").toList, ("I am going to").toList,
          ("Allow me to").toList, ("Sure").toList, ("Of course").toList,
          ("Certainly").toList, ("Alright").toList]
        (fun rest => after (findIdxAny [','] rest))
        (("Here is the summary:").toList ++ r) (14 + j) hpre ha hc
    rw [dropWhile_as_drop, List.drop_drop] at h1
    obtain ⟨m, hm2⟩ := stripAnchored_shape alts2 (kwColon kws2 [':'])
      (f1 (("Here is the summary:").toList ++ r))
    have hf2 : f2 (f1 (("Here is the summary:").toList ++ r))
        = (f1 (("Here is the summary:").toList ++ r)).drop m := hm2
    nth_rewrite 2 [h1] at hf2
    rw [List.drop_drop] at hf2
    refine ⟨_, ?_, hf2⟩
    rw [hlen7] at h1 ⊢
    omega
  | none =>
    have h1 : f1 (("Here is the summary:").toList ++ r)
        = ("Here is the summary:").toList ++ r := by
      apply stripAnchored_eval_none
      have hclosed : ∀ b ∈ alts1,
          (isPrefixOfI b (("Here is the summary:").toList) = false
            ∧ b.length ≤ 20)
          ∨ b = ("Here is").toList ∨ b = ("Here").toList := by decide
      intro a ha
      rcases hclosed a ha with ⟨hf, hle⟩ | rfl | rfl
      · exact Or.inl (by
          rw [isPrefixOfI_append_of_le a (("Here is the summary:").toList)
            hle r]
          exact hf)
      · refine Or.inr ?_
        show after (findIdxAny [','] ((" the summary:").toList ++ r)) = none
        rw [findIdxAny_append_none [','] ((" the summary:").toList) r rfl,
          hr]
        rfl
      · refine Or.inr ?_
        show after (findIdxAny [','] ((" is the summary:").toList ++ r))
          = none
        rw [findIdxAny_append_none [','] ((" is the summary:").toList) r rfl,
          hr]
        rfl
    have hclosed2 : ∀ b ∈ [("Here").toList ++ apos :: ("s is").toList,
        ("Here").toList ++ [apos, 's'],
        ("Here").toList ++ apos :: (" is").toList,
        ("Here").toList ++ [apos], ("Heres is").toList, ("Heres").toList],
        isPrefixOfI b (("Here is the summary:").toList) = false
          ∧ b.length ≤ 20 := by decide
    have hpre2 : ∀ b ∈ [("Here").toList ++ apos :: ("s is").toList,
        ("Here").toList ++ [apos, 's'],
        ("Here").toList ++ apos :: (" is").toList,
        ("Here").toList ++ [apos], ("Heres is").toList, ("Heres").toList],
        isPrefixOfI b (("Here is the summary:").toList ++ r) = false := by
      intro b hb
      rw [isPrefixOfI_append_of_le b (("Here is the summary:").toList)
        (hclosed2 b hb).2 r]
      exact (hclosed2 b hb).1
    have ha2 : isPrefixOfI (("Here is").toList)
        (("Here is the summary:").toList ++ r) = true := by
      rw [isPrefixOfI_append_of_le (("Here is").toList)
        (("Here is the summary:").toList) (by decide) r]
      decide
    have hc2 : kwColon kws2 [':']
        ((("Here is the summary:").toList ++ r).drop
          (("Here is").toList).length) = some 13 := rfl
    have h2 : f2 (("Here is the summary:").toList ++ r)
        = ((("Here is the summary:").toList ++ r).drop
            ((("Here is").toList).length + 13)).dropWhile isWs :=
      stripAnchored_eval_split
        [("Here").toList ++ apos :: ("s is").toList,
          ("Here").toList ++ [apos, 's'],
          ("Here").toList ++ apos :: (" is").toList,
          ("Here").toList ++ [apos], ("Heres is").toList,
          ("Heres").toList]
        (("Here is").toList)
        [("Here").toList, 'I' :: apos :: ("ll").toList,
          'I' :: apos :: ("l").toList, ("Ill").toList, ("Il").toList,
          ("Let me").toList, ("I will").toList, ("I can").toList,
          ("I would").toList, ("I am going to").toList,
          ("Allow me to").toList, ("Sure").toList, ("Of course").toList,
          ("Certainly").toList]
        (kwColon kws2 [':'])
        (("Here is the summary:").toList ++ r) 13 hpre2 ha2 hc2
    rw [dropWhile_as_drop, List.drop_drop] at h2
    rw [h1]
    refine ⟨_, ?_, h2⟩
    rw [hlen7] at h2 ⊢
    omega

/-- **C5**: `cleanModelOutput` is bimodal.  If the text contains a
structural marker, the output is the trim of the input minus a prefix made
only of lead-in boilerplate characters and whitespace, and every
marker-headed suffix of the input — in particular the text from the first
marker on — survives into the output up to trailing whitespace.  If the
text contains no marker and starts with the preamble phrase
"Here is the summary:", the first two aggressive strips remove at least
those 20 characters and the rest of the pipeline runs on the remainder. -/
theorem C5_clean_bimodal (t : Str) :
    (hasMarker t = true →
      (∃ k, cleanModelOutput t = trimChars (t.drop k) ∧
        ∀ c ∈ t.take k,
          lowerA c ∈ leadIns.flatten.map lowerA ∨ isWs c = true) ∧
      (∀ s', s' <:+ t → (∃ m ∈ markerSeqs, m <+: s') →
        trimRightW s' <:+ cleanModelOutput t)) ∧
    (hasMarker t = false → (("Here is the summary:").toList) <+: t →
      ∃ k, 20 ≤ k ∧ f2 (f1 t) = t.drop k ∧
        cleanModelOutput t = tail14 (t.drop k)) := by
  constructor
  · intro hm
    refine ⟨?_, fun s' hs hmk => modeA_marker_suffix t s' hm hs hmk⟩
    obtain ⟨k, hk, hchars⟩ := stripLeadIn_spec t
    refine ⟨k, ?_, hchars⟩
    unfold cleanModelOutput
    rw [if_pos hm, hk]
  · intro hm hpref
    obtain ⟨r, rfl⟩ := hpref
    obtain ⟨k, hk20, hk⟩ := modeB_strip r
    refine ⟨k, hk20, hk, ?_⟩
    unfold cleanModelOutput
    rw [if_neg (by rw [hm]; exact Bool.false_ne_true), hk]

/-- Witness: a marker input whose marker-headed tail survives, and a
marker-free input opening with the preamble phrase. -/
theorem C5_clean_bimodal_witness :
    (trimRightW (("🎯 TITLE ").toList)
      <:+ cleanModelOutput (("Summary: 🎯 TITLE ").toList)) ∧
    (∃ k, 20 ≤ k ∧
      f2 (f1 (("Here is the summary: hello").toList))
        = (("Here is the summary: hello").toList).drop k ∧
      cleanModelOutput (("Here is the summary: hello").toList)
        = tail14 ((("Here is the summary: hello").toList).drop k)) := by
  constructor
  · exact ((C5_clean_bimodal (("Summary: 🎯 TITLE ").toList)).1
      (by decide)).2 (("🎯 TITLE ").toList)
      ⟨("Summary: ").toList, by decide⟩ ⟨['🎯'], by decide, by decide⟩
  · exact (C5_clean_bimodal (("Here is the summary: hello").toList)).2
      (by decide) ⟨(" hello").toList, by decide⟩

/-! ## The POST handler (src/app/api/summarize/route.ts, lines 738-1050)

The handler is modelled as a pure function over an oracle record `Env`
standing for the external world (AI models, the record store, transcript
acquisition).  A `none` from an oracle models the corresponding `await`
throwing.  The run returns the emitted stream events, the record-store
operations issued (with the keys used — what claims about cache and
persistence keys are stated over), and the `activeRequests` table after
the handler's `finally` block.  Error-message texts are abbreviated:
no claim depends on them. -/

/-- One line of the streamed NDJSON response, with the fields the claims
refer to (`message`/`details` texts are dropped). -/
inductive Event where
  | progress (currentChunk totalChunks : Nat) (stage : Str)
  | complete (summary source : Str) (warning : Option Str)
  | error (msg : Str)
deriving DecidableEq, Repr

/-- A record-store operation together with the key it was issued with. -/
inductive DbOp where
  | find (videoId language : Str)
  | update (id : Str)
  | create (videoId : Str)
deriving DecidableEq, Repr

/-- The request body fields used by the handler (missing `url`/`srtId`
are the empty string, as after `data.url || ''`). -/
structure ReqInput where
  url : Str
  srtId : Str
  language : Str
  mode : Str
  aiModel : Str

/-- Oracles for the outside world.  `cacheFind` is the pre-transcript
`findFirst`, `persistFind` the one inside the save block (the store may
change between the two calls).  `srtResult` is
`getSrtTranscript`'s `(transcript, title, youtubeId?)`, `ytResult` is
`getTranscript`'s `(transcript, source, title)`.  `none` means the call
threw. -/
structure Env where
  validModel : Bool
  cacheFind : Str → Str → Option Str
  srtResult : Option (Str × Str × Option Str)
  ytResult : Option (Str × Str × Str)
  chunkGen : Nat → Str → Option Str
  finalGen : Str → Option Str
  persistFind : Str → Str → Option (Option Str)
  persistUpdate : Str → Option (Str × Str)
  persistCreate : Str → Option (Str × Str)

def mkRequestId (vid language mode aiModel : Str) : Str :=
  vid ++ '-' :: language ++ '-' :: mode ++ '-' :: aiModel

/-- videoId determination (lines 760-768): an SRT id is used verbatim as
the cache key; otherwise the URL is resolved; otherwise the handler
throws. -/
def vidOf (inp : ReqInput) : Except Str (Str × Bool) :=
  if inp.srtId ≠ [] ∧ ("srt").toList.isPrefixOf inp.srtId then
    Except.ok (inp.srtId, true)
  else if inp.url ≠ [] then
    match extractVideoId inp.url with
    | some v => Except.ok (v, false)
    | none => Except.error (("Could not extract video ID from URL").toList)
  else
    Except.error
      (("Either a YouTube URL or SRT file ID must be provided").toList)

/-- Transcript acquisition (lines 841-861): on the SRT path a truthy
`youtubeId` from the SRT id replaces the videoId used from here on. -/
def acquireTranscript (env : Env) (vid : Str) (isSrt : Bool) :
    Except Str (Str × Str × Str) :=
  if isSrt then
    match env.srtResult with
    | none => Except.error (("Failed to process SRT file").toList)
    | some (tr, _, yid) =>
      Except.ok (tr, ("srt").toList,
        match yid with
        | some y => if y = [] then vid else y
        | none => vid)
  else
    match env.ytResult with
    | none => Except.error (("Failed to get transcript").toList)
    | some (tr, src, _) => Except.ok (tr, src, vid)

/-- The per-chunk loop (lines 866-900): a progress event per chunk, then
the model call; a throw aborts the loop. -/
def summarizeChunks (gen : Nat → Str → Option Str) (total : Nat) :
    Nat → List Str → List Event × Option (List Str)
  | _, [] => ([], some [])
  | i, c :: cs =>
    match gen i c with
    | none => ([Event.progress (i + 1) total (("processing").toList)], none)
    | some s =>
      let r := summarizeChunks gen total (i + 1) cs
      (Event.progress (i + 1) total (("processing").toList) :: r.1,
        r.2.map (s :: ·))

def nextSectionSep : Str := ("\n\n=== Next Section ===\n\n").toList

def warnSave : Str := ("Failed to save to history").toList

/-- `x || 'youtube'` on the source field. -/
def srcOrYoutube (s : Str) : Str := if s = [] then ("youtube").toList else s

/-- The save block (lines 944-998): findFirst then update-or-create; any
throw is caught and the generated summary is still completed, with a
warning. -/
def persistStep (env : Env) (vid lang summary source : Str) :
    List DbOp × Event :=
  match env.persistFind vid lang with
  | none => ([DbOp.find vid lang],
      Event.complete summary (srcOrYoutube source) (some warnSave))
  | some (some eid) =>
    match env.persistUpdate eid with
    | none => ([DbOp.find vid lang, DbOp.update eid],
        Event.complete summary (srcOrYoutube source) (some warnSave))
    | some (c, s) => ([DbOp.find vid lang, DbOp.update eid],
        Event.complete c (srcOrYoutube s) none)
  | some none =>
    match env.persistCreate vid with
    | none => ([DbOp.find vid lang, DbOp.create vid],
        Event.complete summary (srcOrYoutube source) (some warnSave))
    | some (c, s) => ([DbOp.find vid lang, DbOp.create vid],
        Event.complete c (srcOrYoutube s) none)

/-- The try-block of the handler: events, record-store operations, table
after the body, the requestId at exit, and the thrown message if any. -/
def runBody (env : Env) (inp : ReqInput) (a0 : List Str) :
    List Event × List DbOp × List Str × Str × Option Str :=
  match vidOf inp with
  | Except.error m => ([], [], a0, [], some m)
  | Except.ok (vid, isSrt) =>
    let rid := mkRequestId vid inp.language inp.mode inp.aiModel
    if a0.contains rid then
      ([Event.progress 0 1 (("analyzing").toList),
        Event.error (("Duplicate request").toList)], [], a0, rid, none)
    else
      let a1 := rid :: a0
      if env.validModel = false then
        ([], [], a1, rid, some (("Invalid AI model selected").toList))
      else
        match env.cacheFind vid inp.language with
        | some content =>
          ([Event.complete content (("cache").toList) none],
            [DbOp.find vid inp.language], a1, rid, none)
        | none =>
          match acquireTranscript env vid isSrt with
          | Except.error m =>
            ([Event.progress 0 1 (("analyzing").toList)],
              [DbOp.find vid inp.language], a1, rid, some m)
          | Except.ok (tr, source, vid2) =>
            let chunks := splitTranscriptIntoChunks tr 150000 10000
            let n := chunks.length
            let cres := summarizeChunks env.chunkGen n 0 chunks
            match cres.2 with
            | none =>
              (Event.progress 0 1 (("analyzing").toList) :: cres.1,
                [DbOp.find vid inp.language], a1, rid,
                some (("generation failed").toList))
            | some ints =>
              match env.finalGen (List.intercalate nextSectionSep ints) with
              | none =>
                (Event.progress 0 1 (("analyzing").toList) :: cres.1
                    ++ [Event.progress n n (("finalizing").toList)],
                  [DbOp.find vid inp.language], a1, rid,
                  some (("generation failed").toList))
              | some summary =>
                if summary = [] then
                  (Event.progress 0 1 (("analyzing").toList) :: cres.1
                      ++ [Event.progress n n (("finalizing").toList)],
                    [DbOp.find vid inp.language], a1, rid,
                    some (("No summary content generated").toList))
                else
                  (Event.progress 0 1 (("analyzing").toList) :: cres.1
                      ++ [Event.progress n n (("finalizing").toList),
                        Event.progress n n (("saving").toList),
                        (persistStep env vid2 inp.language summary source).2],
                    DbOp.find vid inp.language
                      :: (persistStep env vid2 inp.language summary source).1,
                    a1, rid, none)

structure RunOut where
  events : List Event
  ops : List DbOp
  table : List Str

/-- The whole handler invocation: catch-all error event, then the
`finally` block, which deletes `requestId` from the table whenever it is
non-empty — also on the duplicate path, where the entry belongs to the
original request. -/
def runPOST (env : Env) (inp : ReqInput) (a0 : List Str) : RunOut :=
  match runBody env inp a0 with
  | (evs, ops, tbl, rid, thrown) =>
    ⟨(match thrown with
      | some m => evs ++ [Event.error m]
      | none => evs),
      ops,
      (if rid = [] then tbl else tbl.erase rid)⟩

def isErrorEv : Event → Bool
  | Event.error _ => true
  | _ => false

def isProgressEv : Event → Bool
  | Event.progress _ _ _ => true
  | _ => false

/-- Any of the three store calls of the save block throwing. -/
def persistFails (env : Env) (vid lang : Str) : Prop :=
  env.persistFind vid lang = none
  ∨ (∃ eid, env.persistFind vid lang = some (some eid)
      ∧ env.persistUpdate eid = none)
  ∨ (env.persistFind vid lang = some none
      ∧ env.persistCreate vid = none)

theorem summarizeChunks_progress (gen : Nat → Str → Option Str)
    (total : Nat) : ∀ (i : Nat) (cs : List Str),
      ((summarizeChunks gen total i cs).1).all isProgressEv = true
  | _, [] => rfl
  | i, c :: cs => by
    unfold summarizeChunks
    cases gen i c with
    | none => rfl
    | some s =>
      simp only [List.all_cons, Bool.and_eq_true]
      exact ⟨rfl, summarizeChunks_progress gen total (i + 1) cs⟩

/-- An environment in which every oracle throws. -/
def envStub : Env :=
  ⟨true, fun _ _ => none, none, none, fun _ _ => none, fun _ => none,
    fun _ _ => none, fun _ => none, fun _ => none⟩

/-- An SRT scenario: a summary is already stored under the linked video
id `YYYYYYYYYYY` (and only under it), the SRT transcript carries that
linked id, generation succeeds, and the store accepts the insert. -/
def envC2 : Env :=
  ⟨true,
    fun v l =>
      if v = ("YYYYYYYYYYY").toList ∧ l = ("en").toList then
        some (("CACHED").toList)
      else none,
    some (("hello world").toList, ("sub").toList,
      some (("YYYYYYYYYYY").toList)),
    none,
    fun _ _ => some (("S").toList),
    fun _ => some (("FINAL").toList),
    fun _ _ => some none,
    fun _ => none,
    fun _ => some (("FINAL").toList, ("srt").toList)⟩

def inpC2 : ReqInput :=
  ⟨[], ("srt:f1:YYYYYYYYYYY:sub.srt").toList, ("en").toList,
    ("video").toList, ("deepseek").toList⟩

/-- **C1** (code bug): when the computed key is already in the in-flight
table, the handler does emit the duplicate-notice progress event and the
error event, but the duplicate's `finally` block then deletes the
original owner's table entry: the table ends empty instead of unchanged,
so the original's entry is removed by the duplicate, not by the original
itself. -/
theorem C1_duplicate_deletes_owner :
    mkRequestId (("srtabc").toList) (("en").toList) (("video").toList)
        (("deepseek").toList)
      ∈ [("srtabc-en-video-deepseek").toList] ∧
    (runPOST envStub
        ⟨[], ("srtabc").toList, ("en").toList, ("video").toList,
          ("deepseek").toList⟩
        [("srtabc-en-video-deepseek").toList]).events
      = [Event.progress 0 1 (("analyzing").toList),
          Event.error (("Duplicate request").toList)] ∧
    (runPOST envStub
        ⟨[], ("srtabc").toList, ("en").toList, ("video").toList,
          ("deepseek").toList⟩
        [("srtabc-en-video-deepseek").toList]).table = [] :=
  ⟨by decide, rfl, rfl⟩

/-- Counterexample to C2: in `envC2` a summary exists under the linked
video id, yet the pre-transcript cache lookup is keyed by the full SRT
id, so the run misses the cache and never completes from it. -/
theorem C2_counterexample :
    (runPOST envC2 inpC2 []).ops.head?
        = some (DbOp.find (("srt:f1:YYYYYYYYYYY:sub.srt").toList)
            (("en").toList)) ∧
    (runPOST envC2 inpC2 []).ops.head?
        ≠ some (DbOp.find (("YYYYYYYYYYY").toList) (("en").toList)) ∧
    Event.complete (("CACHED").toList) (("cache").toList) none
        ∉ (runPOST envC2 inpC2 []).events :=
  ⟨rfl, by decide, by decide⟩

/-- **C2** (amended): for an SRT request whose SRT id carries a linked
video id, the pre-transcript cache lookup is keyed by the full SRT id;
only the save block's lookup and insert are keyed by the linked video
id. -/
theorem C2_amended_keys (env : Env) (inp : ReqInput) (a0 : List Str)
    (tr title Y : Str) (ints : List Str) (summary c s : Str)
    (h1 : inp.srtId ≠ [])
    (h1b : ("srt").toList.isPrefixOf inp.srtId = true)
    (h2 : a0.contains
      (mkRequestId inp.srtId inp.language inp.mode inp.aiModel) = false)
    (h3 : env.validModel = true)
    (h4 : env.cacheFind inp.srtId inp.language = none)
    (h5 : env.srtResult = some (tr, title, some Y))
    (h5b : Y ≠ [])
    (h6 : (summarizeChunks env.chunkGen
        (splitTranscriptIntoChunks tr 150000 10000).length 0
        (splitTranscriptIntoChunks tr 150000 10000)).2 = some ints)
    (h7 : env.finalGen (List.intercalate nextSectionSep ints) = some summary)
    (h7b : summary ≠ [])
    (h8 : env.persistFind Y inp.language = some none)
    (h9 : env.persistCreate Y = some (c, s)) :
    (runPOST env inp a0).ops
      = [DbOp.find inp.srtId inp.language, DbOp.find Y inp.language,
          DbOp.create Y] := by
  have hv : vidOf inp = Except.ok (inp.srtId, true) := by
    unfold vidOf
    rw [if_pos ⟨h1, h1b⟩]
  have hacq : acquireTranscript env inp.srtId true
      = Except.ok (tr, ("srt").toList, Y) := by
    unfold acquireTranscript
    rw [if_pos rfl, h5]
    show Except.ok (tr, ("srt").toList, if Y = [] then inp.srtId else Y)
      = Except.ok (tr, ("srt").toList, Y)
    rw [if_neg h5b]
  have hps : persistStep env Y inp.language summary (("srt").toList)
      = ([DbOp.find Y inp.language, DbOp.create Y],
          Event.complete c (srcOrYoutube s) none) := by
    unfold persistStep
    rw [h8, h9]
  simp only [runPOST, runBody, hv, h2, h3, h4, hacq, h6, h7, h7b, hps,
    Bool.false_eq_true, if_false, Bool.true_eq_false, ite_false]

/-- Witness: in the `envC2` scenario the issued operations are exactly a
lookup under the full SRT id followed by a lookup and an insert under the
linked video id. -/
theorem C2_amended_keys_witness :
    (runPOST envC2 inpC2 []).ops
      = [DbOp.find (("srt:f1:YYYYYYYYYYY:sub.srt").toList)
            (("en").toList),
          DbOp.find (("YYYYYYYYYYY").toList) (("en").toList),
          DbOp.create (("YYYYYYYYYYY").toList)] :=
  C2_amended_keys envC2 inpC2 [] (("hello world").toList)
    (("sub").toList) (("YYYYYYYYYYY").toList) [("S").toList]
    (("FINAL").toList) (("FINAL").toList) (("srt").toList)
    (by decide) (by decide) rfl rfl rfl rfl (by decide) rfl rfl
    (by decide) rfl rfl

/-- **C8**: if the run reaches the save block with a non-empty generated
summary and any of the block's store calls throws, the handler still
completes with that summary, tagged with the save-failure warning, and
the stream carries no error event. -/
theorem C8_persist_failure_nonfatal (env : Env) (inp : ReqInput)
    (a0 : List Str) (vid : Str) (isSrt : Bool) (tr source vid2 : Str)
    (ints : List Str) (summary : Str)
    (hv : vidOf inp = Except.ok (vid, isSrt))
    (h2 : a0.contains
      (mkRequestId vid inp.language inp.mode inp.aiModel) = false)
    (h3 : env.validModel = true)
    (h4 : env.cacheFind vid inp.language = none)
    (hacq : acquireTranscript env vid isSrt = Except.ok (tr, source, vid2))
    (h6 : (summarizeChunks env.chunkGen
        (splitTranscriptIntoChunks tr 150000 10000).length 0
        (splitTranscriptIntoChunks tr 150000 10000)).2 = some ints)
    (h7 : env.finalGen (List.intercalate nextSectionSep ints) = some summary)
    (h7b : summary ≠ [])
    (hfail : persistFails env vid2 inp.language) :
    (∃ pre, (runPOST env inp a0).events
        = pre ++ [Event.complete summary (srcOrYoutube source)
            (some warnSave)]
      ∧ pre.all isProgressEv = true)
    ∧ ∀ e ∈ (runPOST env inp a0).events, isErrorEv e = false := by
  have hps : (persistStep env vid2 inp.language summary source).2
      = Event.complete summary (srcOrYoutube source) (some warnSave) := by
    unfold persistStep
    rcases hfail with hf | ⟨eid, hf, hu⟩ | ⟨hf, hc⟩
    · simp only [hf]
    · simp only [hf, hu]
    · simp only [hf, hc]
  have hev : (runPOST env inp a0).events
      = Event.progress 0 1 (("analyzing").toList)
          :: (summarizeChunks env.chunkGen
              (splitTranscriptIntoChunks tr 150000 10000).length 0
              (splitTranscriptIntoChunks tr 150000 10000)).1
          ++ [Event.progress (splitTranscriptIntoChunks tr 150000 10000).length
                (splitTranscriptIntoChunks tr 150000 10000).length
                (("finalizing").toList),
              Event.progress (splitTranscriptIntoChunks tr 150000 10000).length
                (splitTranscriptIntoChunks tr 150000 10000).length
                (("saving").toList),
              (persistStep env vid2 inp.language summary source).2] := by
    simp only [runPOST, runBody, hv, h2, h3, h4, hacq, h6, h7, h7b,
      Bool.false_eq_true, if_false, Bool.true_eq_false, ite_false]
  have hpe : ∀ e2 : Event, isProgressEv e2 = true → isErrorEv e2 = false := by
    intro e2
    cases e2 <;> simp [isProgressEv, isErrorEv]
  have hallp : ((summarizeChunks env.chunkGen
      (splitTranscriptIntoChunks tr 150000 10000).length 0
      (splitTranscriptIntoChunks tr 150000 10000)).1).all isProgressEv
        = true :=
    summarizeChunks_progress env.chunkGen _ 0 _
  rw [hev, hps]
  constructor
  · refine ⟨Event.progress 0 1 (("analyzing").toList)
        :: (summarizeChunks env.chunkGen
            (splitTranscriptIntoChunks tr 150000 10000).length 0
            (splitTranscriptIntoChunks tr 150000 10000)).1
        ++ [Event.progress (splitTranscriptIntoChunks tr 150000 10000).length
              (splitTranscriptIntoChunks tr 150000 10000).length
              (("finalizing").toList),
            Event.progress (splitTranscriptIntoChunks tr 150000 10000).length
              (splitTranscriptIntoChunks tr 150000 10000).length
              (("saving").toList)], ?_, ?_⟩
    · simp
    · simp only [List.all_cons, List.all_append, Bool.and_eq_true]
      exact ⟨⟨rfl, hallp⟩, rfl, rfl, rfl⟩
  · intro e he
    rw [List.cons_append, List.mem_cons, List.mem_append] at he
    rcases he with rfl | he | he
    · rfl
    · exact hpe e (List.all_eq_true.1 hallp e he)
    · simp only [List.mem_cons, List.not_mem_nil, or_false] at he
      rcases he with rfl | rfl | rfl
      · rfl
      · rfl
      · rfl

/-- A run in which everything succeeds except the save block's insert. -/
def envC8 : Env :=
  ⟨true, fun _ _ => none, none,
    some (("a b").toList, ("youtube").toList, ("T").toList),
    fun _ _ => some (("S").toList), fun _ => some (("FINAL").toList),
    fun _ _ => some none, fun _ => none, fun _ => none⟩

def inpC8 : ReqInput :=
  ⟨("https://youtu.be/dQw4w9WgXcQ").toList, [], ("en").toList,
    ("video").toList, ("deepseek").toList⟩

/-- Witness: with a failing insert the stream still ends in a completion
carrying the generated summary and the warning, with no error event. -/
theorem C8_persist_failure_nonfatal_witness :
    (∃ pre, (runPOST envC8 inpC8 []).events
        = pre ++ [Event.complete (("FINAL").toList)
            (srcOrYoutube (("youtube").toList)) (some warnSave)]
      ∧ pre.all isProgressEv = true)
    ∧ ∀ e ∈ (runPOST envC8 inpC8 []).events, isErrorEv e = false :=
  C8_persist_failure_nonfatal envC8 inpC8 [] (("dQw4w9WgXcQ").toList)
    false (("a b").toList) (("youtube").toList) (("dQw4w9WgXcQ").toList)
    [("S").toList] (("FINAL").toList)
    rfl rfl rfl rfl rfl rfl rfl (by decide)
    (Or.inr (Or.inr ⟨rfl, rfl⟩))

end YTS
